import Mathlib

/-!
Shallow embedding of `cronista` (src/src/cronista/core.py): a functional
instrumentation wrapper producing `Chronicle` values (an optional result plus
structured log rows and display lines), with short-circuiting composition via
`bind_record`.

Modelling conventions:
* Python values are drawn from a small universe `PyVal` (None, int, bool, str,
  pair); Python's `Maybe` from `talvez` (`just`/`nothing`) is `Option PyVal`.
* A wrapped callable is a pure function returning a `CallEffect`: its result
  (`Except` models raising), the warnings it emitted (already rendered with
  `str`, as `warnings.catch_warnings(record=True)` + the f-string do), and the
  text it printed to stdout (as captured by `redirect_stdout`).
* Wall-clock readings (`datetime.now().isoformat`, `time.perf_counter` deltas)
  are nondeterministic inputs, passed in as a `Clock`; elapsed float seconds
  are modelled as `Rat`.
* `difflib.SequenceMatcher` (called with `isjunk=None`, `autojunk=True`) and
  `difflib.unified_diff` are modelled below, faithfully to CPython's difflib
  for this call pattern (`bjunk` is always empty, `bpopular` can be non-empty).
-/

namespace Cronista

/-- Value universe for the embedding: the Python values the library manipulates. -/
inductive PyVal where
  | none
  | int (n : Int)
  | bool (b : Bool)
  | str (s : String)
  | pair (a b : PyVal)
deriving DecidableEq, Repr

/-- Models Python `repr` on the value universe. String reprs are modelled for
strings containing no quotes/backslashes (the only ones exercised here);
`repr` on `PyVal` never raises, so `_safe_repr`'s `except` branch is dead. -/
def pyRepr : PyVal → String
  | .none => "None"
  | .int n => toString n
  | .bool b => if b then "True" else "False"
  | .str s => "\x27" ++ s ++ "\x27"
  | .pair a b => "(" ++ pyRepr a ++ ", " ++ pyRepr b ++ ")"

/-- The truncation step of `_safe_repr` (core.py:17-24): cap the rendering at
`limit` characters, appending a marker. -/
def truncateRepr (s : String) (limit : Nat) : String :=
  if limit < s.length then s.take limit ++ " ... [truncated]" else s

/-- Models `_safe_repr(obj, limit)` (core.py:17-24) on the value universe. -/
def safe_repr (obj : PyVal) (limit : Nat) : String :=
  truncateRepr (pyRepr obj) limit

/-- Python `repr` of the positional-argument tuple (note the trailing comma of
a 1-tuple). -/
def tupleRepr (args : List PyVal) : String :=
  match args with
  | [] => "()"
  | [v] => "(" ++ pyRepr v ++ ",)"
  | vs => "(" ++ String.intercalate ", " (vs.map pyRepr) ++ ")"

/-- Python `repr` of the keyword-argument dict. -/
def dictRepr (kwargs : List (String × PyVal)) : String :=
  "\x7b" ++
    String.intercalate ", "
      (kwargs.map (fun p => "\x27" ++ p.1 ++ "\x27: " ++ pyRepr p.2)) ++
  "\x7d"

/-- Models `_safe_repr({"args": args, "kwargs": kwargs})` (core.py:185), the
bounded input rendering computed at the start of every invocation. -/
def call_input_repr (args : List PyVal) (kwargs : List (String × PyVal)) : String :=
  truncateRepr ("\x7b\x27args\x27: " ++ tupleRepr args ++ ", \x27kwargs\x27: " ++ dictRepr kwargs ++ "\x7d") 2000

/-- Whitespace as recognized by Python `str.strip()` (ASCII subset; the only
characters exercised here). -/
def isPySpace (c : Char) : Bool :=
  c = ' ' ∨ c = '\t' ∨ c = '\n' ∨ c = '\r' ∨ c = '\x0b' ∨ c = '\x0c'

/-- Models Python `str.strip()`. -/
def pyStrip (s : String) : String :=
  String.mk (((s.data.dropWhile isPySpace).reverse.dropWhile isPySpace).reverse)

/-- Models Python `f"{x:.3f}"` on a rational: fixed-point with three decimals
(rounding of exact halves may differ from CPython's binary-float formatting;
only exactly-representable values are exercised). -/
def fmt3 (q : Rat) : String :=
  let m : Int := round (q * 1000)
  let sign := if m < 0 then "-" else ""
  let n := m.natAbs
  let r := n % 1000
  let pad := if r < 10 then "00" else if r < 100 then "0" else ""
  sign ++ toString (n / 1000) ++ "." ++ pad ++ toString r

/-- Models `_format_log_line` (core.py:26-28). -/
def format_log_line (ok : Bool) (fn_label : String) (started_at : String) (elapsed_s : Rat) : String :=
  let status := if ok then "OK" else "NOK"
  status ++ " `" ++ fn_label ++ "` at " ++ started_at ++ " (" ++ fmt3 elapsed_s ++ "s)"

/-! ## difflib model

`_summarize_diff` and the `diff="full"` branch call CPython's
`difflib.SequenceMatcher(None, a, b)` and `difflib.unified_diff`. The
matcher below models difflib for exactly that call pattern: `isjunk=None`
(so `bjunk` is empty and the two junk-extension loops of
`find_longest_match` never run) and `autojunk=True` (so entries of `b`
occurring more than `len(b)//100 + 1` times are purged from `b2j` when
`len(b) >= 200`). -/

/-- A matching block `(a, b, size)`: `a[a..a+size)` matches `b[b..b+size)`. -/
structure MBlock where
  a : Nat
  b : Nat
  size : Nat
deriving DecidableEq, Repr

/-- An opcode `(tag, i1, i2, j1, j2)` as produced by `get_opcodes`. -/
structure Opcode where
  tag : String
  i1 : Nat
  i2 : Nat
  j1 : Nat
  j2 : Nat
deriving DecidableEq, Repr

variable {α : Type} [DecidableEq α]

/-- The ascending list of indices of `x` in `b` (difflib's `b2j` entry),
after the autojunk purge of popular entries (`__chain_b`). -/
def b2jOf (b : List α) (x : α) : List Nat :=
  let idxs := ((b.enum.filter (fun p => p.2 = x)).map (fun p => p.1))
  if 200 ≤ b.length ∧ b.length / 100 + 1 < idxs.length then [] else idxs

/-- Lookup in the `j2len` association map, defaulting to 0 (difflib's
`j2len.get(j-1, 0)`). -/
def j2getD (m : List (Nat × Nat)) (j : Nat) : Nat :=
  match m.find? (fun p => p.1 = j) with
  | some p => p.2
  | _ => 0

/-- One row of `find_longest_match`'s dynamic program: process position `i`
of `a`, whose element occurs in `b` at the (filtered, ascending) indices
`js`; `j2len` is the previous row's map. Returns the new map and best block. -/
def flmRow (j2len : List (Nat × Nat)) (js : List Nat) (i : Nat)
    (best : Nat × Nat × Nat) : List (Nat × Nat) × (Nat × Nat × Nat) :=
  js.foldl
    (fun st j =>
      let k := (if j = 0 then 0 else j2getD j2len (j - 1)) + 1
      let best' := if st.2.2.2 < k then (i + 1 - k, j + 1 - k, k) else st.2
      ((j, k) :: st.1, best'))
    ([], best)

/-- The dynamic program of `find_longest_match` over `i ∈ [alo, ahi)`
(difflib; junk lookups elided since `bjunk` is empty here). -/
def flmCore (a b : List α) (alo ahi blo bhi : Nat) : Nat × Nat × Nat :=
  ((List.range' alo (ahi - alo)).foldl
    (fun st i =>
      let js :=
        match a[i]? with
        | some x => (b2jOf b x).filter (fun j => blo ≤ j ∧ j < bhi)
        | _ => []
      flmRow st.1 js i st.2)
    ([], (alo, blo, 0))).2

/-- The backward extension loop of `find_longest_match`: grow the block while
the preceding elements match (the non-junk variant; the junk variant never
runs since `bjunk` is empty). Structural recursion on a fuel that bounds the
number of iterations: each iteration decrements `bi`, so `bi` itself is an
upper bound and the loop below never exhausts its fuel. -/
def extendBackAux (a b : List α) (alo blo : Nat) : Nat → Nat × Nat × Nat → Nat × Nat × Nat
  | 0, st => st
  | fuel + 1, (bi, bj, sz) =>
    if alo < bi ∧ blo < bj ∧ a[bi - 1]? = b[bj - 1]? ∧ (a[bi - 1]?).isSome then
      extendBackAux a b alo blo fuel (bi - 1, bj - 1, sz + 1)
    else (bi, bj, sz)

/-- The backward extension loop, started with sufficient fuel. -/
def extendBack (a b : List α) (alo blo : Nat) (st : Nat × Nat × Nat) : Nat × Nat × Nat :=
  extendBackAux a b alo blo st.1 st

/-- The forward extension loop of `find_longest_match`; each iteration
increments `sz` while `bi + sz < ahi`, so `ahi` iterations of fuel always
suffice. -/
def extendFwdAux (a b : List α) (ahi bhi : Nat) : Nat → Nat × Nat × Nat → Nat × Nat × Nat
  | 0, st => st
  | fuel + 1, (bi, bj, sz) =>
    if bi + sz < ahi ∧ bj + sz < bhi ∧ a[bi + sz]? = b[bj + sz]? ∧ (a[bi + sz]?).isSome then
      extendFwdAux a b ahi bhi fuel (bi, bj, sz + 1)
    else (bi, bj, sz)

/-- The forward extension loop, started with sufficient fuel. -/
def extendFwd (a b : List α) (ahi bhi : Nat) (st : Nat × Nat × Nat) : Nat × Nat × Nat :=
  extendFwdAux a b ahi bhi ahi st

/-- Models `SequenceMatcher.find_longest_match(alo, ahi, blo, bhi)` for
`isjunk=None`: the dynamic program followed by the two extension loops. -/
def findLongestMatch (a b : List α) (alo ahi blo bhi : Nat) : Nat × Nat × Nat :=
  extendFwd a b ahi bhi (extendBack a b alo blo (flmCore a b alo ahi blo bhi))

/-- The block `a[i..i+k)` matches `b[j..j+k)` element by element (within
bounds). This always holds of `find_longest_match`'s result; it guards the
recursion below so the invariants of the produced block list are witnessed. -/
def blockMatches (a b : List α) (i j k : Nat) : Prop :=
  ∀ t, t < k → a[i + t]? = b[j + t]? ∧ (a[i + t]?).isSome = true

instance (a b : List α) (i j k : Nat) : Decidable (blockMatches a b i j k) :=
  Nat.decidableBallLT k (fun t _ => a[i + t]? = b[j + t]? ∧ (a[i + t]?).isSome = true)

/-- The recursive block collection of `get_matching_blocks`. difflib drives a
queue and sorts the collected `(i, j, size)` triples at the end; because each
recursion step splits the ranges strictly around the found block, that sorted
order is exactly this left-to-right recursion order. The range/matching guard
restates the invariants of `find_longest_match`'s result. Structural
recursion on fuel: each recursive call strictly shrinks
`(ahi - alo) + (bhi - blo)` (the guard gives `k > 0`), so any fuel above
that measure never runs out. -/
def matchingBlocksRecAux (a b : List α) : Nat → Nat → Nat → Nat → Nat → List MBlock
  | 0, _, _, _, _ => []
  | fuel + 1, alo, ahi, blo, bhi =>
    match findLongestMatch a b alo ahi blo bhi with
    | (i, j, k) =>
      if 0 < k ∧ alo ≤ i ∧ i + k ≤ ahi ∧ blo ≤ j ∧ j + k ≤ bhi ∧ blockMatches a b i j k then
        (if alo < i ∧ blo < j then matchingBlocksRecAux a b fuel alo i blo j else []) ++
          ⟨i, j, k⟩ ::
            (if i + k < ahi ∧ j + k < bhi then
              matchingBlocksRecAux a b fuel (i + k) ahi (j + k) bhi else [])
      else []

/-- The recursive block collection, started with sufficient fuel. -/
def matchingBlocksRec (a b : List α) (alo ahi blo bhi : Nat) : List MBlock :=
  matchingBlocksRecAux a b (ahi - alo + (bhi - blo) + 1) alo ahi blo bhi

/-- The adjacency-collapsing pass of `get_matching_blocks`: merge blocks that
abut in both sequences, dropping zero-size running blocks. -/
def collapseAdj : Nat → Nat → Nat → List MBlock → List MBlock
  | i1, j1, k1, [] => if k1 ≠ 0 then [⟨i1, j1, k1⟩] else []
  | i1, j1, k1, blk :: rest =>
    if i1 + k1 = blk.a ∧ j1 + k1 = blk.b then
      collapseAdj i1 j1 (k1 + blk.size) rest
    else
      (if k1 ≠ 0 then [⟨i1, j1, k1⟩] else []) ++ collapseAdj blk.a blk.b blk.size rest

/-- Models `SequenceMatcher.get_matching_blocks()`: recursive collection,
adjacency collapse, and the terminating sentinel `(len(a), len(b), 0)`. -/
def getMatchingBlocks (a b : List α) : List MBlock :=
  collapseAdj 0 0 0 (matchingBlocksRec a b 0 a.length 0 b.length) ++ [⟨a.length, b.length, 0⟩]

/-- The opcode construction of `get_opcodes()`, walking the matching blocks
with a cursor. -/
def opcodesFrom : Nat → Nat → List MBlock → List Opcode
  | _, _, [] => []
  | i, j, blk :: rest =>
    (if i < blk.a ∧ j < blk.b then [⟨"replace", i, blk.a, j, blk.b⟩]
     else if i < blk.a then [⟨"delete", i, blk.a, j, blk.b⟩]
     else if j < blk.b then [⟨"insert", i, blk.a, j, blk.b⟩]
     else []) ++
    (if blk.size ≠ 0 then [⟨"equal", blk.a, blk.a + blk.size, blk.b, blk.b + blk.size⟩] else []) ++
    opcodesFrom (blk.a + blk.size) (blk.b + blk.size) rest

/-- Models `SequenceMatcher.get_opcodes()`. -/
def getOpcodes (a b : List α) : List Opcode :=
  opcodesFrom 0 0 (getMatchingBlocks a b)

/-- Models `_summarize_diff(a, b)` (core.py:30-44): fold the opcodes into
insertion/deletion/match character counts and render the fixed sentence. -/
def summarize_diff (aS bS : String) : String :=
  let c :=
    (getOpcodes aS.data bS.data).foldl
      (fun (acc : Nat × Nat × Nat) op =>
        if op.tag = "insert" then (acc.1 + (op.j2 - op.j1), acc.2.1, acc.2.2)
        else if op.tag = "delete" then (acc.1, acc.2.1 + (op.i2 - op.i1), acc.2.2)
        else if op.tag = "replace" then (acc.1 + (op.j2 - op.j1), acc.2.1 + (op.i2 - op.i1), acc.2.2)
        else if op.tag = "equal" then (acc.1, acc.2.1, acc.2.2 + (op.i2 - op.i1))
        else acc)
      (0, 0, 0)
  "Found differences: " ++ toString c.1 ++ " insertions, " ++ toString c.2.1 ++
    " deletions, " ++ toString c.2.2 ++ " matches (char units)"

/-- Python slice `l[i:j]`. -/
def sliceList (l : List α) (i j : Nat) : List α :=
  (l.drop i).take (j - i)

/-- Models Python `str.splitlines(keepends=True)` for the terminators
`\n`, `\r`, `\r\n` (the ones reprs can contain here). -/
def splitlinesAux : List Char → List Char → List String
  | acc, [] => if acc.isEmpty then [] else [String.mk acc.reverse]
  | acc, '\r' :: '\n' :: rest => String.mk (acc.reverse ++ ['\r', '\n']) :: splitlinesAux [] rest
  | acc, '\n' :: rest => String.mk (acc.reverse ++ ['\n']) :: splitlinesAux [] rest
  | acc, '\r' :: rest => String.mk (acc.reverse ++ ['\r']) :: splitlinesAux [] rest
  | acc, c :: rest => splitlinesAux (c :: acc) rest
termination_by _ l => l.length
decreasing_by
  all_goals simp
  omega

/-- Models `s.splitlines(keepends=True)`. -/
def splitlinesKeepends (s : String) : List String :=
  splitlinesAux [] s.data

/-- Models difflib's `_format_range_unified`. -/
def formatRangeUnified (start stop : Nat) : String :=
  let beginning := start + 1
  let length := stop - start
  if length = 1 then toString beginning
  else toString (if length = 0 then beginning - 1 else beginning) ++ "," ++ toString length

/-- The head fixup of `get_grouped_opcodes`: trim a leading `equal` opcode to
`n` context lines. -/
def fixupHead (n : Nat) : List Opcode → List Opcode
  | [] => []
  | op :: rest =>
    if op.tag = "equal" then ⟨op.tag, max op.i1 (op.i2 - n), op.i2, max op.j1 (op.j2 - n), op.j2⟩ :: rest
    else op :: rest

/-- The tail fixup of `get_grouped_opcodes`: trim a trailing `equal` opcode. -/
def fixupLast (n : Nat) (l : List Opcode) : List Opcode :=
  match l.getLast? with
  | some op =>
    if op.tag = "equal" then
      l.dropLast ++ [⟨op.tag, op.i1, min op.i2 (op.i1 + n), op.j1, min op.j2 (op.j1 + n)⟩]
    else l
  | _ => l

/-- The grouping loop of `get_grouped_opcodes`: split at `equal` opcodes wider
than `2n`, keeping `n` lines of context on each side. -/
def groupLoop (n : Nat) : List Opcode → List Opcode → List (List Opcode)
  | group, [] =>
    if group ≠ [] ∧ ¬(group.length = 1 ∧ (group.head?.map Opcode.tag) = some "equal") then [group]
    else []
  | group, op :: rest =>
    if op.tag = "equal" ∧ n + n < op.i2 - op.i1 then
      (group ++ [⟨"equal", op.i1, min op.i2 (op.i1 + n), op.j1, min op.j2 (op.j1 + n)⟩]) ::
        groupLoop n [⟨"equal", max op.i1 (op.i2 - n), op.i2, max op.j1 (op.j2 - n), op.j2⟩] rest
    else groupLoop n (group ++ [op]) rest

/-- Models `SequenceMatcher.get_grouped_opcodes(n)`. -/
def getGroupedOpcodes (a b : List α) (n : Nat) : List (List Opcode) :=
  let codes := getOpcodes a b
  let codes := if codes.isEmpty then [⟨"equal", 0, 1, 0, 1⟩] else codes
  groupLoop n [] (fixupLast n (fixupHead n codes))

/-- Models `difflib.unified_diff(a, b, fromfile, tofile, n=3)` with the
default `lineterm="\n"`, collected into a list (core.py:239-246). -/
def unifiedDiff (a b : List String) (fromfile tofile : String) (n : Nat) : List String :=
  match getGroupedOpcodes a b n with
  | [] => []
  | groups =>
    ["--- " ++ fromfile ++ "\n", "+++ " ++ tofile ++ "\n"] ++
      groups.flatMap (fun group =>
        match group.head?, group.getLast? with
        | some first, some last =>
          ("@@ -" ++ formatRangeUnified first.i1 last.i2 ++ " +" ++
              formatRangeUnified first.j1 last.j2 ++ " @@\n") ::
            group.flatMap (fun op =>
              if op.tag = "equal" then (sliceList a op.i1 op.i2).map (" " ++ ·)
              else
                (if op.tag = "replace" ∨ op.tag = "delete" then
                    (sliceList a op.i1 op.i2).map ("-" ++ ·)
                  else []) ++
                (if op.tag = "replace" ∨ op.tag = "insert" then
                    (sliceList b op.j1 op.j2).map ("+" ++ ·)
                  else []))
        | _, _ => [])

/-! ## Data model: exceptions, call effects, clock, log rows, chronicles -/

/-- A raised Python exception, reduced to what the library reads off it:
`type(e).__name__` and `str(e)`. -/
structure PyExn where
  kind : String
  text : String
deriving DecidableEq, Repr

/-- The observable behaviour of one execution of the wrapped callable inside
the capture scope (core.py:194-202): its result or raised exception, the
warnings recorded by `catch_warnings(record=True)` (each already rendered as
`str(w.message)`), and the text captured by `redirect_stdout`. -/
structure CallEffect where
  result : Except PyExn PyVal
  warnings : List String
  printed : String

/-- One invocation's nondeterministic wall-clock observations:
`_now_iso()` at start and end, and the `perf_counter` delta in seconds. -/
structure Clock where
  started_at : String
  ended_at : String
  elapsed : Rat
deriving DecidableEq, Repr

/-- The `diff_obj` field: `None`, a summary string, or a unified-diff line
list (`Union[str, List[str], None]` in core.py:233). -/
inductive DiffObj where
  | none
  | summary (s : String)
  | full (lines : List String)
deriving DecidableEq, Repr

/-- One `log_df` row (the dict built at core.py:94-105 and 249-260). `g` is
`PyVal.none` for Python `None`; `run_time` models the float seconds. -/
structure Row where
  ops_number : Nat
  outcome : String
  function : String
  message : Option String
  start_time : String
  end_time : String
  run_time : Rat
  g : PyVal
  diff_obj : DiffObj
  lag_outcome : Option String
deriving DecidableEq, Repr

/-- Models `Chronicle` (core.py:46-60): a Maybe value (`Option PyVal`), the
structured rows `log_df`, and the printable `_lines`. -/
structure Chronicle where
  value : Option PyVal
  log_df : List Row
  lines : List String
deriving DecidableEq, Repr

/-- Models `Chronicle.is_ok` (core.py:75-76): the talvez Maybe is a Just. -/
def Chronicle.is_ok (c : Chronicle) : Bool :=
  c.value.isSome

/-- Models `Chronicle.read_log` (core.py:78-79). -/
def Chronicle.read_log (c : Chronicle) : List String :=
  c.lines

/-- Models `RecordedFunction` (core.py:164-179) after construction. `func` is
the wrapped callable on positional/keyword arguments; `call_sig_fallback`
models the reflection-based `_call_signature_fallback` (core.py:266-274),
whose `inspect.signature` rendering has no shallow counterpart. -/
structure RecordedFunction where
  func : List PyVal → List (String × PyVal) → CallEffect
  strict : Int
  g : Option (PyVal → Except PyExn PyVal)
  diff : String
  fn_label : String
  call_sig_fallback : List PyVal → List (String × PyVal) → String

/-- Models `RecordedFunction.__init__` (core.py:165-179): validates only the
diff mode (raising `ValueError` otherwise) and computes the label via
`name or getattr(func, "__name__", "<anonymous>")` (`func_name` stands for
the `getattr` result; an empty `name` is falsy in Python). -/
def RecordedFunction.init (func : List PyVal → List (String × PyVal) → CallEffect)
    (strict : Int) (g : Option (PyVal → Except PyExn PyVal)) (diff : String)
    (name : Option String) (func_name : Option String)
    (sig_fallback : List PyVal → List (String × PyVal) → String) :
    Except PyExn RecordedFunction :=
  if diff ≠ "none" ∧ diff ≠ "summary" ∧ diff ≠ "full" then
    .error ⟨"ValueError", "diff must be one of: \"none\", \"summary\", \"full\""⟩
  else
    .ok
      { func := func, strict := strict, g := g, diff := diff,
        fn_label :=
          match name with
          | some s => if s = "" then func_name.getD "<anonymous>" else s
          | _ => func_name.getD "<anonymous>",
        call_sig_fallback := sig_fallback }

/-- Models `RecordedFunction.__call__` (core.py:181-264): run the callable in
the capture scope, apply the strict policy, wrap the value as a Maybe, run
the inspector, compute the diff, and build the single-row chronicle. -/
def RecordedFunction.call (rf : RecordedFunction) (args : List PyVal)
    (kwargs : List (String × PyVal)) (clk : Clock) : Chronicle :=
  let started_at := clk.started_at
  let input_repr := call_input_repr args kwargs
  let eff := rf.func args kwargs
  let res0 : Bool × Option String × PyVal :=
    match eff.result with
    | .ok v => (true, none, v)
    | .error e => (false, some (e.kind ++ ": " ++ e.text), .none)
  let warning_records := eff.warnings
  let res1 : Bool × Option String :=
    if res0.1 ∧ 2 ≤ rf.strict ∧ warning_records ≠ [] then
      (false, some ("Warning: " ++ warning_records.headD ""))
    else (res0.1, res0.2.1)
  let res2 : Bool × Option String :=
    if res1.1 ∧ 3 ≤ rf.strict ∧ pyStrip eff.printed ≠ "" then
      (false, some ("Message: " ++ pyStrip eff.printed))
    else res1
  let ok := res2.1
  let message := res2.2
  let value := res0.2.2
  let ended_at := clk.ended_at
  let elapsed := clk.elapsed
  let maybe_val : Option PyVal := if ok then some value else none
  let g_val : PyVal :=
    if ok then
      match rf.g with
      | some gf =>
        match gf value with
        | .ok gv => gv
        | .error e => .str ("<inspector error: " ++ e.kind ++ ": " ++ e.text ++ ">")
      | _ => .none
    else .none
  let diff_obj : DiffObj :=
    if rf.diff ≠ "none" then
      let out_repr := if ok then safe_repr value 2000 else "<no-output>"
      if rf.diff = "summary" then .summary (summarize_diff input_repr out_repr)
      else .full (unifiedDiff (splitlinesKeepends input_repr) (splitlinesKeepends out_repr) "input" "output" 3)
    else .none
  let row : Row :=
    { ops_number := 1,
      outcome := if ok then "OK! Success" else "NOK! Failure",
      function := if ok then rf.fn_label else rf.call_sig_fallback args kwargs,
      message := message,
      start_time := started_at,
      end_time := ended_at,
      run_time := elapsed,
      g := g_val,
      diff_obj := diff_obj,
      lag_outcome := none }
  let line := format_log_line ok rf.fn_label started_at elapsed
  { value := maybe_val, log_df := [row], lines := [line] }

/-- The renumbering loop of `bind_record` (core.py:114-119): each row of the
next chronicle gets a fresh `ops_number` and a `lag_outcome` carried along
(the prior chronicle's last outcome for the first row, then the previous
renumbered row's outcome — which renumbering preserves). -/
def renumber (next_op : Nat) (lag : Option String) : List Row → List Row
  | [] => []
  | r :: rs =>
    { r with ops_number := next_op, lag_outcome := lag } :: renumber (next_op + 1) (some r.outcome) rs

/-- Generalization of `Chronicle.bind_record` over an arbitrary next step
(a chronicle-valued function plus a display label): exactly the code of
core.py:81-126 with `f base_val` in place of `rfunc(base_val, *args,
**kwargs)` and `fn_label` in place of `rfunc.fn_label`. `bind_record` is
the instance where the step is a `RecordedFunction` invocation. -/
def Chronicle.bind_step (c : Chronicle) (fn_label : String) (f : PyVal → Chronicle)
    (clk : Clock) : Chronicle :=
  let next_op := c.log_df.length + 1
  match c.value with
  | none =>
    let started_at := clk.started_at
    let line := format_log_line false fn_label started_at 0
    let new_row : Row :=
      { ops_number := next_op,
        outcome := "NOK! Failure",
        function := fn_label,
        message := some "Short-circuited due to Nothing",
        start_time := started_at,
        end_time := started_at,
        run_time := 0,
        g := .none,
        diff_obj := .none,
        lag_outcome := (c.log_df.getLast?).map Row.outcome }
    { value := c.value, log_df := c.log_df ++ [new_row], lines := c.lines ++ [line] }
  | some base_val =>
    let next_ch := f base_val
    { value := next_ch.value,
      log_df := c.log_df ++ renumber next_op ((c.log_df.getLast?).map Row.outcome) next_ch.log_df,
      lines := c.lines ++ next_ch.read_log }

/-- Models `Chronicle.bind_record(rfunc, *args, **kwargs)` (core.py:81-126):
short-circuit with a synthetic NOK row if the value is Nothing, otherwise
invoke `rfunc(base_val, *args, **kwargs)` and compose logs. The clock
provides the `_now_iso()` / timing readings of whichever branch runs. -/
def Chronicle.bind_record (c : Chronicle) (rfunc : RecordedFunction) (args : List PyVal)
    (kwargs : List (String × PyVal)) (clk : Clock) : Chronicle :=
  c.bind_step rfunc.fn_label (fun base_val => rfunc.call (base_val :: args) kwargs clk) clk

/-- Result universe of `unveil`, which returns the unwrapped value (or
`None`), the row list, or the line list depending on the selector. -/
inductive UnveilResult where
  | value (v : Option PyVal)
  | log_df (rows : List Row)
  | lines (ls : List String)
deriving DecidableEq, Repr

/-- Models `unveil(c, what)` (core.py:128-141); the unrecognized-selector
branch raises `ValueError`. -/
def unveil (c : Chronicle) (what : String) : Except PyExn UnveilResult :=
  if what = "value" then .ok (.value c.value)
  else if what = "log_df" then .ok (.log_df c.log_df)
  else if what = "lines" then .ok (.lines c.read_log)
  else .error ⟨"ValueError", "what must be one of: \"value\", \"log_df\", \"lines\""⟩

/-- Models the module-level `read_log(c)` (core.py:143-144). -/
def read_log (c : Chronicle) : List String :=
  c.read_log

/-- Chronicles reachable through the public API: produced by a recorder
invocation, or by `bind_record` on a reachable chronicle. -/
inductive Reachable : Chronicle → Prop where
  | call (rf : RecordedFunction) (args : List PyVal) (kwargs : List (String × PyVal))
      (clk : Clock) : Reachable (rf.call args kwargs clk)
  | bind (c : Chronicle) (rf : RecordedFunction) (args : List PyVal)
      (kwargs : List (String × PyVal)) (clk : Clock) :
      Reachable c → Reachable (c.bind_record rf args kwargs clk)

/-- One step of a bind chain: the recorder, its extra arguments, and the
clock of that step. -/
structure Step where
  rfunc : RecordedFunction
  args : List PyVal
  kwargs : List (String × PyVal)
  clk : Clock

/-- Fold a chain of `bind_record` steps over a starting chronicle. -/
def chainBind (c : Chronicle) (steps : List Step) : Chronicle :=
  steps.foldl (fun ch s => ch.bind_record s.rfunc s.args s.kwargs s.clk) c

/-- Every step of the chain succeeded: the starting chronicle holds a value
and each step's actual invocation (on the value flowing into it) produced a
Just. -/
def allSucceeded : Chronicle → List Step → Bool
  | c, [] => c.value.isSome
  | c, s :: rest =>
    match c.value with
    | none => false
    | some v =>
      ((s.rfunc.call (v :: s.args) s.kwargs s.clk).value).isSome &&
        allSucceeded (c.bind_record s.rfunc s.args s.kwargs s.clk) rest

/-! ## Proof-support definitions -/

/-- Two rows agree on every field except `ops_number` and `lag_outcome` (the
two fields the renumbering loop of `bind_record` overwrites). -/
def Row.sameCore (r s : Row) : Prop :=
  r.outcome = s.outcome ∧ r.function = s.function ∧ r.message = s.message ∧
    r.start_time = s.start_time ∧ r.end_time = s.end_time ∧ r.run_time = s.run_time ∧
    r.g = s.g ∧ r.diff_obj = s.diff_obj

/-- The outcome of the last row of `xs`, or `lag` if `xs` is empty: the
`lag_outcome` the renumbering loop would carry after processing `xs`. -/
def lastOutcomeD (lag : Option String) (xs : List Row) : Option String :=
  match xs.getLast? with
  | some r => some r.outcome
  | _ => lag

/-- Cursor position after walking a block list from `(i, j)`. -/
def endCur : Nat → Nat → List MBlock → Nat × Nat
  | i, j, [] => (i, j)
  | _, _, blk :: rest => endCur (blk.a + blk.size) (blk.b + blk.size) rest

/-- Total matched size of a block list. -/
def sizeSum (bs : List MBlock) : Nat :=
  (bs.map MBlock.size).sum

/-- The block list is cursor-monotone within `[.. ihi] × [.. jhi]` starting
from `(i0, j0)`: each block starts at or after the running cursor and ends
within bounds. This is the shape `get_matching_blocks` guarantees. -/
def ChainB (ihi jhi : Nat) : Nat → Nat → List MBlock → Prop
  | _, _, [] => True
  | i0, j0, blk :: rest =>
    i0 ≤ blk.a ∧ blk.a + blk.size ≤ ihi ∧ j0 ≤ blk.b ∧ blk.b + blk.size ≤ jhi ∧
      ChainB ihi jhi (blk.a + blk.size) (blk.b + blk.size) rest

/-- Every block of the list matches element by element between `a` and `b`. -/
def AllM (a b : List α) (bs : List MBlock) : Prop :=
  ∀ blk ∈ bs, blockMatches a b blk.a blk.b blk.size

/-- The index pairs matched by one block. -/
def blockPairs (blk : MBlock) : List (Nat × Nat) :=
  (List.range blk.size).map (fun t => (blk.a + t, blk.b + t))

/-- The index pairs matched by a block list. -/
def alignPairs : List MBlock → List (Nat × Nat)
  | [] => []
  | blk :: rest => blockPairs blk ++ alignPairs rest

/-- `ps` is a common-subsequence alignment of `a` and `b`: the matched index
pairs are strictly increasing in both coordinates and relate equal
elements. -/
def IsAlignment (a b : List α) (ps : List (Nat × Nat)) : Prop :=
  ps.Pairwise (fun p q => p.1 < q.1 ∧ p.2 < q.2) ∧
    ∀ p ∈ ps, a[p.1]? = b[p.2]? ∧ (a[p.1]?).isSome = true

/-- Recursive form of the count fold of `_summarize_diff`:
`(insertions, deletions, matches)`. -/
def countsRec : List Opcode → Nat × Nat × Nat
  | [] => (0, 0, 0)
  | op :: rest =>
    let c := countsRec rest
    if op.tag = "insert" then (c.1 + (op.j2 - op.j1), c.2.1, c.2.2)
    else if op.tag = "delete" then (c.1, c.2.1 + (op.i2 - op.i1), c.2.2)
    else if op.tag = "replace" then (c.1 + (op.j2 - op.j1), c.2.1 + (op.i2 - op.i1), c.2.2)
    else if op.tag = "equal" then (c.1, c.2.1, c.2.2 + (op.i2 - op.i1))
    else c

/-! ## Concrete fixtures used by witness theorems -/

/-- A fixed clock reading. -/
def clk0 : Clock := ⟨"2024-01-01 10:00:00", "2024-01-01 10:00:01", 0⟩

/-- A recorder whose callable returns 7 with no warnings or output. -/
def rfOK : RecordedFunction :=
  ⟨fun _ _ => ⟨.ok (.int 7), [], ""⟩, 1, none, "none", "f", fun _ _ => "f()"⟩

/-- A recorder whose callable raises `ZeroDivisionError`. -/
def rfErr : RecordedFunction :=
  ⟨fun _ _ => ⟨.error ⟨"ZeroDivisionError", "division by zero"⟩, [], ""⟩, 1, none, "none",
    "inv", fun _ _ => "inv(x=0)"⟩

/-- A strict-2 recorder whose callable succeeds but emits a warning. -/
def rfWarn : RecordedFunction :=
  ⟨fun _ _ => ⟨.ok (.int 1), ["deprecated call"], ""⟩, 2, none, "none", "w", fun _ _ => "w()"⟩

/-- A recorder with a throwing inspector. -/
def rfInspErr : RecordedFunction :=
  ⟨fun _ _ => ⟨.ok (.int 2), [], ""⟩, 1, some (fun _ => .error ⟨"TypeError", "boom"⟩), "none",
    "insp", fun _ _ => "insp()"⟩

/-- A summary-diff recorder whose callable returns the string "ab". -/
def rfDiffSum : RecordedFunction :=
  ⟨fun _ _ => ⟨.ok (.str "ab"), [], ""⟩, 1, none, "summary", "identity", fun _ _ => "identity()"⟩

/-- A rowless chronicle holding Nothing. -/
def chAbs : Chronicle := ⟨none, [], []⟩

/-- The single row `rfOK.call [] [] clk0` produces. -/
def rowOK : Row :=
  ⟨1, "OK! Success", "f", none, "2024-01-01 10:00:00", "2024-01-01 10:00:01", 0,
    PyVal.none, DiffObj.none, none⟩

/-! ## Renumbering lemmas -/

theorem renumber_length (xs : List Row) : ∀ (next_op : Nat) (lag : Option String),
    (renumber next_op lag xs).length = xs.length := by
  induction xs with
  | nil => intro k lag; rfl
  | cons r rs ih => intro k lag; simp [renumber, ih]

theorem renumber_get (xs : List Row) :
    ∀ (next_op : Nat) (lag : Option String) (i : Nat) (r : Row), xs[i]? = some r →
      ∃ r', (renumber next_op lag xs)[i]? = some r' ∧ r'.ops_number = next_op + i ∧
        Row.sameCore r' r := by
  induction xs with
  | nil => intro k lag i r h; simp at h
  | cons x rs ih =>
    intro k lag i r h
    cases i with
    | zero =>
      simp only [List.getElem?_cons_zero, Option.some.injEq] at h
      subst h
      refine ⟨{ x with ops_number := k, lag_outcome := lag }, ?_, ?_, ?_⟩
      · simp [renumber]
      · simp
      · exact ⟨rfl, rfl, rfl, rfl, rfl, rfl, rfl, rfl⟩
    | succ n =>
      simp only [List.getElem?_cons_succ] at h
      obtain ⟨r', h1, h2, h3⟩ := ih (k + 1) (some x.outcome) n r h
      exact ⟨r', by simpa [renumber] using h1, by omega, h3⟩

theorem lastOutcomeD_cons (lag : Option String) (r : Row) (rs : List Row) :
    lastOutcomeD lag (r :: rs) = lastOutcomeD (some r.outcome) rs := by
  cases rs with
  | nil => rfl
  | cons y ys =>
    rcases h : (y :: ys).getLast? with _ | z
    · simp at h
    · simp [lastOutcomeD, List.getLast?_cons_cons, h]

theorem renumber_append (xs : List Row) : ∀ (ys : List Row) (next_op : Nat) (lag : Option String),
    renumber next_op lag (xs ++ ys) =
      renumber next_op lag xs ++ renumber (next_op + xs.length) (lastOutcomeD lag xs) ys := by
  induction xs with
  | nil => intro ys k lag; simp [renumber, lastOutcomeD]
  | cons r rs ih =>
    intro ys k lag
    have harith : k + (r :: rs).length = (k + 1) + rs.length := by
      simp only [List.length_cons]
      omega
    calc renumber k lag ((r :: rs) ++ ys)
        = { r with ops_number := k, lag_outcome := lag } ::
            renumber (k + 1) (some r.outcome) (rs ++ ys) := rfl
      _ = { r with ops_number := k, lag_outcome := lag } ::
            (renumber (k + 1) (some r.outcome) rs ++
              renumber ((k + 1) + rs.length) (lastOutcomeD (some r.outcome) rs) ys) := by
          rw [ih]
      _ = renumber k lag (r :: rs) ++
            renumber (k + (r :: rs).length) (lastOutcomeD lag (r :: rs)) ys := by
          rw [lastOutcomeD_cons, harith]
          rfl

theorem renumber_renumber (xs : List Row) :
    ∀ (k k' : Nat) (lag lag' : Option String),
      renumber k lag (renumber k' lag' xs) = renumber k lag xs := by
  induction xs with
  | nil => intro k k' lag lag'; rfl
  | cons r rs ih => intro k k' lag lag'; simp [renumber, ih]

theorem renumber_getLast?_outcome (xs : List Row) :
    ∀ (k : Nat) (lag : Option String),
      ((renumber k lag xs).getLast?).map Row.outcome = (xs.getLast?).map Row.outcome := by
  induction xs with
  | nil => intro k lag; rfl
  | cons r rs ih =>
    intro k lag
    cases rs with
    | nil => rfl
    | cons y ys =>
      simp only [renumber, List.getLast?_cons_cons]
      have := ih (k + 1) (some r.outcome)
      simpa [renumber] using this

theorem append_getLast?_outcome (xs ys : List Row) :
    ((xs ++ ys).getLast?).map Row.outcome = lastOutcomeD ((xs.getLast?).map Row.outcome) ys := by
  rcases ys.eq_nil_or_concat with hys | ⟨zs, z, hys⟩
  · subst hys; simp [lastOutcomeD]
  · subst hys
    rw [List.concat_eq_append, ← List.append_assoc]
    simp [List.getLast?_concat, lastOutcomeD]

/-! ## C1: short-circuit binding -/

/-- C1: binding onto a chronicle holding Nothing never invokes the next
recorder's callable (the result depends only on the recorder's label) and
returns the old chronicle extended by exactly one synthetic Failure row —
`ops_number = len(old rows) + 1`, the recorder's label, message
"Short-circuited due to Nothing", `run_time = 0.0`, `g = None`,
`diff_obj = None`, `lag_outcome` = the previous last outcome — plus one
matching NOK display line, the value staying Nothing. -/
theorem C1_short_circuit (c : Chronicle) (rf : RecordedFunction) (args : List PyVal)
    (kwargs : List (String × PyVal)) (clk : Clock) (h : c.value = none) :
    c.bind_record rf args kwargs clk =
      { value := none,
        log_df := c.log_df ++
          [{ ops_number := c.log_df.length + 1,
             outcome := "NOK! Failure",
             function := rf.fn_label,
             message := some "Short-circuited due to Nothing",
             start_time := clk.started_at,
             end_time := clk.started_at,
             run_time := 0,
             g := PyVal.none,
             diff_obj := DiffObj.none,
             lag_outcome := (c.log_df.getLast?).map Row.outcome }],
        lines := c.lines ++ [format_log_line false rf.fn_label clk.started_at 0] } ∧
    ∀ rf' : RecordedFunction, rf'.fn_label = rf.fn_label →
      c.bind_record rf' args kwargs clk = c.bind_record rf args kwargs clk := by
  constructor
  · simp [Chronicle.bind_record, Chronicle.bind_step, h]
  · intro rf' hl
    simp [Chronicle.bind_record, Chronicle.bind_step, h, hl]

/-- Witness for C1 at a concrete absent chronicle and recorder. -/
theorem C1_short_circuit_witness :
    chAbs.value = none ∧
      chAbs.bind_record rfOK [] [] clk0 =
        { value := none,
          log_df := chAbs.log_df ++
            [{ ops_number := chAbs.log_df.length + 1,
               outcome := "NOK! Failure",
               function := rfOK.fn_label,
               message := some "Short-circuited due to Nothing",
               start_time := clk0.started_at,
               end_time := clk0.started_at,
               run_time := 0,
               g := PyVal.none,
               diff_obj := DiffObj.none,
               lag_outcome := (chAbs.log_df.getLast?).map Row.outcome }],
          lines := chAbs.lines ++ [format_log_line false rfOK.fn_label clk0.started_at 0] } :=
  ⟨rfl, (C1_short_circuit chAbs rfOK [] [] clk0 rfl).1⟩

/-! ## C2: binding on a present value -/

theorem bind_value_of_none (c : Chronicle) (rf : RecordedFunction) (args : List PyVal)
    (kwargs : List (String × PyVal)) (clk : Clock) (h : c.value = none) :
    (c.bind_record rf args kwargs clk).value = none := by
  simp [Chronicle.bind_record, Chronicle.bind_step, h]

theorem allSucceeded_of_none (steps : List Step) :
    ∀ (c : Chronicle), c.value = none → allSucceeded c steps = false := by
  induction steps with
  | nil => intro c h; simp [allSucceeded, h]
  | cons s rest ih => intro c h; simp [allSucceeded, h]

theorem chainBind_value_isSome (steps : List Step) :
    ∀ (c : Chronicle), ((chainBind c steps).value).isSome = allSucceeded c steps := by
  induction steps with
  | nil => intro c; simp [chainBind, allSucceeded]
  | cons s rest ih =>
    intro c
    have hstep : chainBind c (s :: rest) = chainBind (c.bind_record s.rfunc s.args s.kwargs s.clk) rest := rfl
    rw [hstep, ih]
    rcases hv : c.value with _ | v
    · rw [allSucceeded_of_none rest _ (bind_value_of_none c _ _ _ _ hv)]
      simp [allSucceeded, hv]
    · simp only [allSucceeded, hv]
      rcases hcall : ((s.rfunc.call (v :: s.args) s.kwargs s.clk).value) with _ | w
      · have hb : (c.bind_record s.rfunc s.args s.kwargs s.clk).value = none := by
          simp [Chronicle.bind_record, Chronicle.bind_step, hv, hcall]
        rw [allSucceeded_of_none rest _ hb]
        simp
      · simp

/-- C2: binding onto a chronicle holding `Present v` invokes the next
recorder on `v` and the extra arguments, keeps the next chronicle's value,
appends the next chronicle's rows renumbered so the i-th appended row gets
`ops_number = len(old rows) + 1 + i` (all other fields except `lag_outcome`
unchanged), concatenates the line sequences — and consequently, over any
chain of binds, the final value is Present iff every step in the chain
succeeded. -/
theorem C2_bind_present :
    (∀ (c : Chronicle) (v : PyVal) (rf : RecordedFunction) (args : List PyVal)
        (kwargs : List (String × PyVal)) (clk : Clock), c.value = some v →
      (c.bind_record rf args kwargs clk).value = (rf.call (v :: args) kwargs clk).value ∧
      (c.bind_record rf args kwargs clk).lines = c.lines ++ (rf.call (v :: args) kwargs clk).lines ∧
      (c.bind_record rf args kwargs clk).log_df.length =
        c.log_df.length + (rf.call (v :: args) kwargs clk).log_df.length ∧
      (∀ i, i < c.log_df.length → (c.bind_record rf args kwargs clk).log_df[i]? = c.log_df[i]?) ∧
      (∀ i r, (rf.call (v :: args) kwargs clk).log_df[i]? = some r →
        ∃ r', (c.bind_record rf args kwargs clk).log_df[c.log_df.length + i]? = some r' ∧
          r'.ops_number = c.log_df.length + 1 + i ∧ Row.sameCore r' r)) ∧
    (∀ (c : Chronicle) (steps : List Step),
      ((chainBind c steps).value).isSome = allSucceeded c steps) := by
  constructor
  · intro c v rf args kwargs clk hv
    have hbind : c.bind_record rf args kwargs clk =
        { value := (rf.call (v :: args) kwargs clk).value,
          log_df := c.log_df ++
            renumber (c.log_df.length + 1) ((c.log_df.getLast?).map Row.outcome)
              (rf.call (v :: args) kwargs clk).log_df,
          lines := c.lines ++ (rf.call (v :: args) kwargs clk).lines } := by
      simp [Chronicle.bind_record, Chronicle.bind_step, hv, Chronicle.read_log]
    refine ⟨by rw [hbind], by rw [hbind], ?_, ?_, ?_⟩
    · rw [hbind]; simp [renumber_length]
    · intro i hi
      rw [hbind]
      exact List.getElem?_append_left hi
    · intro i r hr
      rw [hbind]
      obtain ⟨r', h1, h2, h3⟩ :=
        renumber_get _ (c.log_df.length + 1) ((c.log_df.getLast?).map Row.outcome) i r hr
      refine ⟨r', ?_, by omega, h3⟩
      rw [List.getElem?_append_right (by omega)]
      simpa using h1
  · exact fun c steps => chainBind_value_isSome steps c

/-- Witness for C2 at concrete chronicles: a successful call bound again,
and a chain evaluation. -/
theorem C2_bind_present_witness :
    (rfOK.call [] [] clk0).value = some (PyVal.int 7) ∧
    ((rfOK.call [] [] clk0).bind_record rfOK [] [] clk0).log_df.length =
      (rfOK.call [] [] clk0).log_df.length + (rfOK.call [PyVal.int 7] [] clk0).log_df.length ∧
    ((chainBind chAbs []).value).isSome = allSucceeded chAbs [] :=
  ⟨by decide,
    (C2_bind_present.1 (rfOK.call [] [] clk0) (PyVal.int 7) rfOK [] [] clk0 (by decide)).2.2.1,
    C2_bind_present.2 chAbs []⟩

/-! ## C3/C4: invariants of reachable chronicles -/

theorem call_row_shape (rf : RecordedFunction) (args : List PyVal)
    (kwargs : List (String × PyVal)) (clk : Clock) :
    ∀ i r, (rf.call args kwargs clk).log_df[i]? = some r →
      r.ops_number = 1 ∧ r.lag_outcome = none ∧ i = 0 := by
  intro i r h
  simp only [RecordedFunction.call] at h
  cases i with
  | zero =>
    simp only [List.getElem?_cons_zero, Option.some.injEq] at h
    subst h
    exact ⟨rfl, rfl, rfl⟩
  | succ n => simp at h

theorem call_log_length (rf : RecordedFunction) (args : List PyVal)
    (kwargs : List (String × PyVal)) (clk : Clock) :
    (rf.call args kwargs clk).log_df.length = 1 := rfl

theorem call_lines_length (rf : RecordedFunction) (args : List PyVal)
    (kwargs : List (String × PyVal)) (clk : Clock) :
    (rf.call args kwargs clk).lines.length = 1 := rfl

theorem bind_record_shape (c : Chronicle) (rf : RecordedFunction) (args : List PyVal)
    (kwargs : List (String × PyVal)) (clk : Clock) :
    ∃ nr, (c.bind_record rf args kwargs clk).log_df = c.log_df ++ [nr] ∧
      (c.bind_record rf args kwargs clk).lines.length = c.lines.length + 1 ∧
      nr.ops_number = c.log_df.length + 1 ∧
      nr.lag_outcome = (c.log_df.getLast?).map Row.outcome := by
  rcases hv : c.value with _ | v
  · refine ⟨{ ops_number := c.log_df.length + 1, outcome := "NOK! Failure",
              function := rf.fn_label, message := some "Short-circuited due to Nothing",
              start_time := clk.started_at, end_time := clk.started_at, run_time := 0,
              g := PyVal.none, diff_obj := DiffObj.none,
              lag_outcome := (c.log_df.getLast?).map Row.outcome }, ?_, ?_, rfl, rfl⟩
    · simp [Chronicle.bind_record, Chronicle.bind_step, hv]
    · simp [Chronicle.bind_record, Chronicle.bind_step, hv]
  · rcases hlog : (rf.call (v :: args) kwargs clk).log_df with _ | ⟨row0, rest⟩
    · have := congrArg List.length hlog
      rw [call_log_length] at this
      simp at this
    · have hrest : rest = [] := by
        have h2 := congrArg List.length hlog
        rw [call_log_length] at h2
        simp at h2
        exact h2
      subst hrest
      refine ⟨{ row0 with ops_number := c.log_df.length + 1, lag_outcome := (c.log_df.getLast?).map Row.outcome }, ?_, ?_, rfl, rfl⟩
      · have hbind : (c.bind_record rf args kwargs clk).log_df =
            c.log_df ++ renumber (c.log_df.length + 1) ((c.log_df.getLast?).map Row.outcome)
              ((rf.call (v :: args) kwargs clk).log_df) := by
          simp [Chronicle.bind_record, Chronicle.bind_step, hv]
        rw [hbind, hlog]
        rfl
      · have hbind2 : (c.bind_record rf args kwargs clk).lines =
            c.lines ++ (rf.call (v :: args) kwargs clk).lines := by
          simp [Chronicle.bind_record, Chronicle.bind_step, hv, Chronicle.read_log]
        rw [hbind2, List.length_append, call_lines_length]

theorem reachable_invariants (c : Chronicle) (hr : Reachable c) :
    c.log_df.length = c.lines.length ∧
    c.log_df ≠ [] ∧
    (∀ i r, c.log_df[i]? = some r → r.ops_number = i + 1) ∧
    (∀ i r r', c.log_df[i]? = some r → c.log_df[i + 1]? = some r' →
      r'.lag_outcome = some r.outcome) ∧
    (∀ r, c.log_df[0]? = some r → r.lag_outcome = none) := by
  induction hr with
  | call rf args kwargs clk =>
    refine ⟨by rw [call_log_length, call_lines_length], ?_, ?_, ?_, ?_⟩
    · intro hnil
      have := congrArg List.length hnil
      rw [call_log_length] at this
      simp at this
    · intro i r h
      obtain ⟨h1, _, h3⟩ := call_row_shape rf args kwargs clk i r h
      omega
    · intro i r r' _ h'
      obtain ⟨_, _, h3⟩ := call_row_shape rf args kwargs clk (i + 1) r' h'
      omega
    · intro r h
      exact (call_row_shape rf args kwargs clk 0 r h).2.1
  | bind c rf args kwargs clk hc ih =>
    obtain ⟨ihlen, ihne, ihops, ihlag, ihfirst⟩ := ih
    obtain ⟨nr, hlog, hlines, hops, hlagv⟩ := bind_record_shape c rf args kwargs clk
    have hn : 0 < c.log_df.length := List.length_pos.mpr ihne
    refine ⟨?_, ?_, ?_, ?_, ?_⟩
    · rw [hlog, hlines, List.length_append]
      simp [ihlen]
    · rw [hlog]
      simp
    · intro i r h
      rw [hlog] at h
      by_cases hi : i < c.log_df.length
      · rw [List.getElem?_append_left hi] at h
        exact ihops i r h
      · have hi2 : i < c.log_df.length + 1 := by
          have := h
          have hlt : i < (c.log_df ++ [nr]).length := by
            rcases List.getElem?_eq_some_iff.mp h with ⟨hw, _⟩
            simpa using hw
          simpa using hlt
        have hieq : i = c.log_df.length := by omega
        subst hieq
        rw [List.getElem?_append_right (le_refl _)] at h
        simp at h
        rw [← h]
        exact hops
    · intro i r r' h h'
      rw [hlog] at h h'
      by_cases hi : i + 1 < c.log_df.length
      · rw [List.getElem?_append_left hi] at h'
        rw [List.getElem?_append_left (by omega)] at h
        exact ihlag i r r' h h'
      · have hlt : i + 1 < (c.log_df ++ [nr]).length := by
          rcases List.getElem?_eq_some_iff.mp h' with ⟨hw, _⟩
          simpa using hw
        have hieq : i + 1 = c.log_df.length := by
          simp at hlt
          omega
        rw [List.getElem?_append_right (by omega)] at h'
        rw [hieq] at h'
        simp at h'
        rw [List.getElem?_append_left (by omega)] at h
        rw [← h']
        rw [hlagv, List.getLast?_eq_getElem?]
        have : c.log_df.length - 1 = i := by omega
        rw [this, h]
        rfl
    · intro r h
      rw [hlog, List.getElem?_append_left hn] at h
      exact ihfirst r h

/-- C3: in every chronicle produced by a recorder invocation or a sequence of
binds, each row's `lag_outcome` is the outcome of the row immediately before
it in the merged order, and `lag_outcome` is `None` exactly for the very
first row. -/
theorem C3_prior_outcome (c : Chronicle) (hr : Reachable c) :
    (∀ i r r', c.log_df[i]? = some r → c.log_df[i + 1]? = some r' →
      r'.lag_outcome = some r.outcome) ∧
    (∀ i r, c.log_df[i]? = some r → (r.lag_outcome = none ↔ i = 0)) := by
  obtain ⟨_, _, _, hlag, hfirst⟩ := reachable_invariants c hr
  refine ⟨hlag, ?_⟩
  intro i r h
  constructor
  · intro hnone
    cases i with
    | zero => rfl
    | succ k =>
      have hk : k < c.log_df.length := by
        rcases List.getElem?_eq_some_iff.mp h with ⟨hw, _⟩
        omega
      have hprev : c.log_df[k]? = some (c.log_df.get ⟨k, hk⟩) :=
        List.getElem?_eq_getElem hk
      have := hlag k (c.log_df.get ⟨k, hk⟩) r hprev h
      rw [this] at hnone
      simp at hnone
  · intro h0
    subst h0
    exact hfirst r h

/-- Witness for C3 at a concrete reachable chronicle. -/
theorem C3_prior_outcome_witness :
    Reachable ((rfOK.call [] [] clk0).bind_record rfOK [] [] clk0) ∧
    (rowOK.lag_outcome = none ↔ 0 = 0) :=
  ⟨Reachable.bind _ rfOK [] [] clk0 (Reachable.call rfOK [] [] clk0),
    (C3_prior_outcome ((rfOK.call [] [] clk0).bind_record rfOK [] [] clk0)
        (Reachable.bind _ rfOK [] [] clk0 (Reachable.call rfOK [] [] clk0))).2
      0 rowOK (by decide)⟩

/-- C4: every chronicle reachable through the public API has as many rows as
display lines, and its `ops_number` values are exactly `1, 2, ...,
len(rows)` in order. -/
theorem C4_rows_lines_ops (c : Chronicle) (hr : Reachable c) :
    c.log_df.length = c.lines.length ∧
    ∀ i r, c.log_df[i]? = some r → r.ops_number = i + 1 :=
  ⟨(reachable_invariants c hr).1, (reachable_invariants c hr).2.2.1⟩

/-- Witness for C4 at a concrete reachable chronicle. -/
theorem C4_rows_lines_ops_witness :
    Reachable ((rfOK.call [] [] clk0).bind_record rfOK [] [] clk0) ∧
    ((rfOK.call [] [] clk0).bind_record rfOK [] [] clk0).log_df.length =
      ((rfOK.call [] [] clk0).bind_record rfOK [] [] clk0).lines.length :=
  ⟨Reachable.bind _ rfOK [] [] clk0 (Reachable.call rfOK [] [] clk0),
    (C4_rows_lines_ops _ (Reachable.bind _ rfOK [] [] clk0 (Reachable.call rfOK [] [] clk0))).1⟩

/-! ## C5: strictness policy -/

/-- C5: when the callable returns normally, the strict policy applies in
order: at `strict >= 2` a captured warning demotes the provisional Success to
Failure with message `Warning: <first warning>`; otherwise at `strict >= 3`
non-whitespace captured stdout demotes it with message
`Message: <stripped text>`; at strictness 1 warnings and printed output never
change the outcome. -/
theorem C5_strict_policy (rf : RecordedFunction) (args : List PyVal)
    (kwargs : List (String × PyVal)) (clk : Clock) (v : PyVal)
    (hres : (rf.func args kwargs).result = .ok v) :
    ((2 ≤ rf.strict ∧ (rf.func args kwargs).warnings ≠ []) →
      (rf.call args kwargs clk).log_df.map Row.outcome = ["NOK! Failure"] ∧
      (rf.call args kwargs clk).log_df.map Row.message =
        [some ("Warning: " ++ ((rf.func args kwargs).warnings.headD ""))] ∧
      (rf.call args kwargs clk).value = none) ∧
    ((¬(2 ≤ rf.strict ∧ (rf.func args kwargs).warnings ≠ []) ∧ 3 ≤ rf.strict ∧
        pyStrip (rf.func args kwargs).printed ≠ "") →
      (rf.call args kwargs clk).log_df.map Row.outcome = ["NOK! Failure"] ∧
      (rf.call args kwargs clk).log_df.map Row.message =
        [some ("Message: " ++ pyStrip (rf.func args kwargs).printed)] ∧
      (rf.call args kwargs clk).value = none) ∧
    (rf.strict = 1 →
      (rf.call args kwargs clk).log_df.map Row.outcome = ["OK! Success"] ∧
      (rf.call args kwargs clk).value = some v) := by
  refine ⟨?_, ?_, ?_⟩
  · rintro ⟨h2, hw⟩
    simp [RecordedFunction.call, hres, h2, hw]
  · rintro ⟨hnot, h3, hp⟩
    simp [RecordedFunction.call, hres, hnot, h3, hp]
  · intro h1
    have hn2 : ¬((2 : Int) ≤ rf.strict) := by omega
    have hn3 : ¬((3 : Int) ≤ rf.strict) := by omega
    simp [RecordedFunction.call, hres, hn2, hn3]

/-- Witness for C5: a strict-2 recorder with one captured warning. -/
theorem C5_strict_policy_witness :
    (rfWarn.func [] []).result = .ok (PyVal.int 1) ∧
    ((2 : Int) ≤ rfWarn.strict ∧ (rfWarn.func [] []).warnings ≠ []) ∧
    (rfWarn.call [] [] clk0).log_df.map Row.outcome = ["NOK! Failure"] ∧
    (rfWarn.call [] [] clk0).log_df.map Row.message =
      [some ("Warning: " ++ ((rfWarn.func [] []).warnings.headD ""))] :=
  ⟨rfl, ⟨by decide, by decide⟩,
    ((C5_strict_policy rfWarn [] [] clk0 (PyVal.int 1) rfl).1 ⟨by decide, by decide⟩).1,
    ((C5_strict_policy rfWarn [] [] clk0 (PyVal.int 1) rfl).1 ⟨by decide, by decide⟩).2.1⟩

/-! ## C6: exceptions are contained -/

/-- C6: a raised exception yields (never raises) a chronicle with an absent
value and a single Failure row whose message is `<ErrorKind>: <description>`;
invocation and binding always return a chronicle by type, and the only
raising entry points are construction (`ValueError` iff the diff mode is
invalid) and an unrecognized `unveil` selector (`ValueError`). -/
theorem C6_exception_containment :
    (∀ (rf : RecordedFunction) (args : List PyVal) (kwargs : List (String × PyVal))
        (clk : Clock) (e : PyExn), (rf.func args kwargs).result = .error e →
      (rf.call args kwargs clk).value = none ∧
      (rf.call args kwargs clk).log_df.map Row.outcome = ["NOK! Failure"] ∧
      (rf.call args kwargs clk).log_df.map Row.message = [some (e.kind ++ ": " ++ e.text)]) ∧
    (∀ (func : List PyVal → List (String × PyVal) → CallEffect) (strict : Int)
        (g : Option (PyVal → Except PyExn PyVal)) (diff : String)
        (name func_name : Option String)
        (sig_fallback : List PyVal → List (String × PyVal) → String),
      ((diff = "none" ∨ diff = "summary" ∨ diff = "full") →
        ∃ rf, RecordedFunction.init func strict g diff name func_name sig_fallback = .ok rf) ∧
      (diff ≠ "none" → diff ≠ "summary" → diff ≠ "full" →
        RecordedFunction.init func strict g diff name func_name sig_fallback =
          .error ⟨"ValueError", "diff must be one of: \"none\", \"summary\", \"full\""⟩)) ∧
    (∀ (c : Chronicle) (what : String),
      (what ≠ "value" → what ≠ "log_df" → what ≠ "lines" →
        unveil c what =
          .error ⟨"ValueError", "what must be one of: \"value\", \"log_df\", \"lines\""⟩) ∧
      (unveil c "value" = .ok (.value c.value) ∧
        unveil c "log_df" = .ok (.log_df c.log_df) ∧
        unveil c "lines" = .ok (.lines c.lines))) := by
  refine ⟨?_, ?_, ?_⟩
  · intro rf args kwargs clk e hres
    simp [RecordedFunction.call, hres]
  · intro func strict g diff name func_name sig_fallback
    constructor
    · rintro (hd | hd | hd) <;> subst hd <;> exact ⟨_, rfl⟩
    · intro h1 h2 h3
      simp [RecordedFunction.init, h1, h2, h3]
  · intro c what
    constructor
    · intro h1 h2 h3
      simp [unveil, h1, h2, h3]
    · exact ⟨rfl, rfl, rfl⟩

/-- Witness for C6: a concrete raising callable, plus the accessor cases. -/
theorem C6_exception_containment_witness :
    (rfErr.func [] []).result = .error ⟨"ZeroDivisionError", "division by zero"⟩ ∧
    (rfErr.call [] [] clk0).value = none ∧
    (rfErr.call [] [] clk0).log_df.map Row.message =
      [some ("ZeroDivisionError" ++ ": " ++ "division by zero")] ∧
    unveil chAbs "nope" =
      .error ⟨"ValueError", "what must be one of: \"value\", \"log_df\", \"lines\""⟩ :=
  ⟨rfl,
    (C6_exception_containment.1 rfErr [] [] clk0 ⟨"ZeroDivisionError", "division by zero"⟩ rfl).1,
    (C6_exception_containment.1 rfErr [] [] clk0 ⟨"ZeroDivisionError", "division by zero"⟩ rfl).2.2,
    (C6_exception_containment.2.2 chAbs "nope").1 (by decide) (by decide) (by decide)⟩

/-! ## C7: inspector containment -/

/-- C7: with a configured inspector, a Success row records the inspector's
result in `g`, a raising inspector leaves the outcome Success and stores an
error-description string in `g`, a Failure row has `g = None`, and the
inspector can never change the outcome. -/
theorem C7_inspector (rf : RecordedFunction) (gf : PyVal → Except PyExn PyVal)
    (args : List PyVal) (kwargs : List (String × PyVal)) (clk : Clock)
    (hg : rf.g = some gf) :
    (∀ v, (rf.func args kwargs).result = .ok v →
      (rf.call args kwargs clk).log_df.map Row.outcome = ["OK! Success"] →
      ((∀ e, gf v = .error e →
          (rf.call args kwargs clk).log_df.map Row.g =
            [PyVal.str ("<inspector error: " ++ e.kind ++ ": " ++ e.text ++ ">")]) ∧
        (∀ gv, gf v = .ok gv → (rf.call args kwargs clk).log_df.map Row.g = [gv]))) ∧
    ((rf.call args kwargs clk).log_df.map Row.outcome = ["NOK! Failure"] →
      (rf.call args kwargs clk).log_df.map Row.g = [PyVal.none]) ∧
    (∀ o₁ o₂ : Option (PyVal → Except PyExn PyVal),
      (({ rf with g := o₁ } : RecordedFunction).call args kwargs clk).log_df.map Row.outcome =
        (({ rf with g := o₂ } : RecordedFunction).call args kwargs clk).log_df.map Row.outcome) := by
  refine ⟨?_, ?_, ?_⟩
  · intro v hres hout
    by_cases hW : (2 ≤ rf.strict ∧ (rf.func args kwargs).warnings ≠ [])
    · simp [RecordedFunction.call, hres, hW] at hout
    · by_cases hP : (3 ≤ rf.strict ∧ pyStrip (rf.func args kwargs).printed ≠ "")
      · simp [RecordedFunction.call, hres, hW, hP] at hout
      · constructor
        · intro e he
          simp [RecordedFunction.call, hres, hW, hP, hg, he]
        · intro gv hgv
          simp [RecordedFunction.call, hres, hW, hP, hg, hgv]
  · intro hout
    rcases hres : (rf.func args kwargs).result with e | v
    · simp [RecordedFunction.call, hres]
    · by_cases hW : (2 ≤ rf.strict ∧ (rf.func args kwargs).warnings ≠ [])
      · simp [RecordedFunction.call, hres, hW]
      · by_cases hP : (3 ≤ rf.strict ∧ pyStrip (rf.func args kwargs).printed ≠ "")
        · simp [RecordedFunction.call, hres, hW, hP]
        · simp [RecordedFunction.call, hres, hW, hP] at hout
  · intro o₁ o₂
    simp [RecordedFunction.call]

/-- Witness for C7: a recorder whose inspector raises still reports Success
and stores the inspector error string. -/
theorem C7_inspector_witness :
    rfInspErr.g = some (fun _ => .error ⟨"TypeError", "boom"⟩) ∧
    (rfInspErr.call [] [] clk0).log_df.map Row.outcome = ["OK! Success"] ∧
    (rfInspErr.call [] [] clk0).log_df.map Row.g =
      [PyVal.str ("<inspector error: " ++ "TypeError" ++ ": " ++ "boom" ++ ">")] :=
  ⟨rfl, by decide,
    ((C7_inspector rfInspErr (fun _ => .error ⟨"TypeError", "boom"⟩) [] [] clk0 rfl).1
        (PyVal.int 2) rfl (by decide)).1 ⟨"TypeError", "boom"⟩ rfl⟩

/-! ## C10: strictness is unvalidated and clamped by the threshold checks -/

/-- C10: construction validates only the diff mode and accepts any integer
strictness; at invocation a strictness below 2 behaves exactly like level 1
and one above 3 exactly like level 3, because the policy checks are the
thresholds `strict >= 2` and `strict >= 3`. -/
theorem C10_strict_clamp :
    (∀ (strict : Int) (func : List PyVal → List (String × PyVal) → CallEffect)
        (g : Option (PyVal → Except PyExn PyVal)) (name func_name : Option String)
        (sig_fallback : List PyVal → List (String × PyVal) → String) (d : String),
      (d = "none" ∨ d = "summary" ∨ d = "full") →
      ∃ rf, RecordedFunction.init func strict g d name func_name sig_fallback = .ok rf ∧
        rf.strict = strict) ∧
    (∀ (rf : RecordedFunction) (s : Int) (args : List PyVal)
        (kwargs : List (String × PyVal)) (clk : Clock), s ≤ 1 →
      ({ rf with strict := s } : RecordedFunction).call args kwargs clk =
        ({ rf with strict := 1 } : RecordedFunction).call args kwargs clk) ∧
    (∀ (rf : RecordedFunction) (s : Int) (args : List PyVal)
        (kwargs : List (String × PyVal)) (clk : Clock), 3 ≤ s →
      ({ rf with strict := s } : RecordedFunction).call args kwargs clk =
        ({ rf with strict := 3 } : RecordedFunction).call args kwargs clk) := by
  refine ⟨?_, ?_, ?_⟩
  · intro strict func g name func_name sig_fallback d hd
    rcases hd with hd | hd | hd <;> subst hd <;> exact ⟨_, rfl, rfl⟩
  · intro rf s args kwargs clk hs
    have hn2 : ¬((2 : Int) ≤ s) := by omega
    have hn2' : ¬((2 : Int) ≤ (1 : Int)) := by omega
    have hn3 : ¬((3 : Int) ≤ s) := by omega
    have hn3' : ¬((3 : Int) ≤ (1 : Int)) := by omega
    simp [RecordedFunction.call, hn2, hn2', hn3, hn3']
  · intro rf s args kwargs clk hs
    have h2 : (2 : Int) ≤ s := by omega
    have h2' : (2 : Int) ≤ (3 : Int) := by omega
    have h3' : (3 : Int) ≤ (3 : Int) := by omega
    simp [RecordedFunction.call, hs, h2, h2', h3']

/-- Witness for C10: strictness 0 behaves like strictness 1. -/
theorem C10_strict_clamp_witness :
    ((0 : Int) ≤ 1) ∧
    ({ rfOK with strict := 0 } : RecordedFunction).call [] [] clk0 =
      ({ rfOK with strict := 1 } : RecordedFunction).call [] [] clk0 :=
  ⟨by decide, C10_strict_clamp.2.1 rfOK 0 [] [] clk0 (by decide)⟩

/-! ## C9: associativity of binding -/

theorem bind_step_of_some (c : Chronicle) (v : PyVal) (hv : c.value = some v)
    (lbl : String) (f : PyVal → Chronicle) (clk : Clock) :
    c.bind_step lbl f clk =
      { value := (f v).value,
        log_df := c.log_df ++
          renumber (c.log_df.length + 1) ((c.log_df.getLast?).map Row.outcome) (f v).log_df,
        lines := c.lines ++ (f v).lines } := by
  simp [Chronicle.bind_step, hv, Chronicle.read_log]

theorem bind_step_of_none (c : Chronicle) (hv : c.value = none)
    (lbl : String) (f : PyVal → Chronicle) (clk : Clock) :
    c.bind_step lbl f clk =
      { value := none,
        log_df := c.log_df ++
          [{ ops_number := c.log_df.length + 1, outcome := "NOK! Failure", function := lbl,
             message := some "Short-circuited due to Nothing", start_time := clk.started_at,
             end_time := clk.started_at, run_time := 0, g := PyVal.none,
             diff_obj := DiffObj.none,
             lag_outcome := (c.log_df.getLast?).map Row.outcome }],
        lines := c.lines ++ [format_log_line false lbl clk.started_at 0] } := by
  simp [Chronicle.bind_step, hv]

theorem lastOutcomeD_congr (xs ys : List Row)
    (h : (xs.getLast?).map Row.outcome = (ys.getLast?).map Row.outcome)
    (lag : Option String) : lastOutcomeD lag xs = lastOutcomeD lag ys := by
  rcases hx : xs.getLast? with _ | r <;> rcases hy : ys.getLast? with _ | s <;>
    rw [hx, hy] at h <;> simp_all [lastOutcomeD]

theorem bind_step_assoc (c : Chronicle) (v : PyVal) (hv : c.value = some v)
    (lb lc : String) (f g : PyVal → Chronicle) (clkb clkc : Clock) :
    (c.bind_step lb f clkb).bind_step lc g clkc =
      c.bind_step lb (fun w => (f w).bind_step lc g clkc) clkb := by
  rw [bind_step_of_some c v hv lb f clkb, bind_step_of_some c v hv lb
    (fun w => (f w).bind_step lc g clkc) clkb]
  have hlast : (((c.log_df ++
      renumber (c.log_df.length + 1) ((c.log_df.getLast?).map Row.outcome)
        (f v).log_df)).getLast?).map Row.outcome =
      lastOutcomeD ((c.log_df.getLast?).map Row.outcome) (f v).log_df := by
    rw [append_getLast?_outcome]
    exact lastOutcomeD_congr _ _ (renumber_getLast?_outcome (f v).log_df _ _) _
  have hlen : (c.log_df ++
      renumber (c.log_df.length + 1) ((c.log_df.getLast?).map Row.outcome)
        (f v).log_df).length + 1 =
      (c.log_df.length + 1) + (f v).log_df.length := by
    rw [List.length_append, renumber_length]
    omega
  rcases hfv : (f v).value with _ | v2
  · rw [bind_step_of_none
      { value := none,
        log_df := c.log_df ++
          renumber (c.log_df.length + 1) ((c.log_df.getLast?).map Row.outcome) (f v).log_df,
        lines := c.lines ++ (f v).lines } rfl lc g clkc]
    rw [bind_step_of_none (f v) hfv lc g clkc]
    rw [renumber_append]
    simp only [renumber]
    rw [hlast, hlen, List.append_assoc, List.append_assoc]
  · rw [bind_step_of_some
      { value := some v2,
        log_df := c.log_df ++
          renumber (c.log_df.length + 1) ((c.log_df.getLast?).map Row.outcome) (f v).log_df,
        lines := c.lines ++ (f v).lines } v2 rfl lc g clkc]
    rw [bind_step_of_some (f v) v2 hfv lc g clkc]
    rw [renumber_append, renumber_renumber]
    rw [hlast, hlen, List.append_assoc, List.append_assoc]

/-- C9: for recorders `a`, `b`, `c`, whenever `a`'s invocation produced a
value (the case in which the next step is actually invoked, which is when
"b then c" is expressible as a single combined step under the binding
semantics), `a.bind(b).bind(c)` produces exactly the same chronicle — value,
row sequence and line sequence — as binding `a`'s chronicle once to the
combined step that invokes `b` and then binds `c`. -/
theorem C9_bind_associativity (a b c : RecordedFunction) (x : List PyVal)
    (kwx : List (String × PyVal)) (clka : Clock) (argsb argsc : List PyVal)
    (kwb kwc : List (String × PyVal)) (clkb clkc : Clock) (v : PyVal)
    (hv : (a.call x kwx clka).value = some v) :
    ((a.call x kwx clka).bind_record b argsb kwb clkb).bind_record c argsc kwc clkc =
      (a.call x kwx clka).bind_step b.fn_label
        (fun w => ((b.call (w :: argsb) kwb clkb).bind_record c argsc kwc clkc)) clkb := by
  show ((a.call x kwx clka).bind_step b.fn_label
      (fun w => b.call (w :: argsb) kwb clkb) clkb).bind_step c.fn_label
      (fun w => c.call (w :: argsc) kwc clkc) clkc = _
  rw [bind_step_assoc (a.call x kwx clka) v hv b.fn_label c.fn_label
    (fun w => b.call (w :: argsb) kwb clkb) (fun w => c.call (w :: argsc) kwc clkc) clkb clkc]
  rfl

/-- Witness for C9 at concrete recorders. -/
theorem C9_bind_associativity_witness :
    (rfOK.call [] [] clk0).value = some (PyVal.int 7) ∧
    ((rfOK.call [] [] clk0).bind_record rfOK [] [] clk0).bind_record rfErr [] [] clk0 =
      (rfOK.call [] [] clk0).bind_step rfOK.fn_label
        (fun w => ((rfOK.call (w :: []) [] clk0).bind_record rfErr [] [] clk0)) clk0 :=
  ⟨by decide,
    C9_bind_associativity rfOK rfOK rfErr [] [] clk0 [] [] [] [] clk0 clk0 (PyVal.int 7)
      (by decide)⟩

/-! ## C8: the summary diff -/

theorem chainB_mono (ihi jhi ihi' jhi' : Nat) (hih : ihi ≤ ihi') (hjh : jhi ≤ jhi') :
    ∀ (bs : List MBlock) (i0 j0 i0' j0' : Nat), i0' ≤ i0 → j0' ≤ j0 →
      ChainB ihi jhi i0 j0 bs → ChainB ihi' jhi' i0' j0' bs := by
  intro bs
  induction bs with
  | nil => intro i0 j0 i0' j0' _ _ _; trivial
  | cons blk rest ih =>
    intro i0 j0 i0' j0' hi hj h
    obtain ⟨h1, h2, h3, h4, h5⟩ := h
    exact ⟨by omega, by omega, by omega, by omega, ih _ _ _ _ (le_refl _) (le_refl _) h5⟩

theorem chainB_endCur_ge (ihi jhi : Nat) :
    ∀ (bs : List MBlock) (i0 j0 : Nat), ChainB ihi jhi i0 j0 bs →
      i0 ≤ (endCur i0 j0 bs).1 ∧ j0 ≤ (endCur i0 j0 bs).2 := by
  intro bs
  induction bs with
  | nil => intro i0 j0 _; exact ⟨le_refl _, le_refl _⟩
  | cons blk rest ih =>
    intro i0 j0 h
    obtain ⟨h1, h2, h3, h4, h5⟩ := h
    obtain ⟨e1, e2⟩ := ih (blk.a + blk.size) (blk.b + blk.size) h5
    exact ⟨by simp [endCur]; omega, by simp [endCur]; omega⟩

theorem chainB_endCur_le (ihi jhi : Nat) :
    ∀ (bs : List MBlock) (i0 j0 : Nat), ChainB ihi jhi i0 j0 bs →
      i0 ≤ ihi → j0 ≤ jhi →
      (endCur i0 j0 bs).1 ≤ ihi ∧ (endCur i0 j0 bs).2 ≤ jhi := by
  intro bs
  induction bs with
  | nil => intro i0 j0 _ hi hj; exact ⟨hi, hj⟩
  | cons blk rest ih =>
    intro i0 j0 h hi hj
    obtain ⟨h1, h2, h3, h4, h5⟩ := h
    exact ih (blk.a + blk.size) (blk.b + blk.size) h5 h2 h4

theorem endCur_append : ∀ (xs ys : List MBlock) (i0 j0 : Nat),
    endCur i0 j0 (xs ++ ys) = endCur (endCur i0 j0 xs).1 (endCur i0 j0 xs).2 ys := by
  intro xs
  induction xs with
  | nil => intro ys i0 j0; rfl
  | cons blk rest ih => intro ys i0 j0; simp [endCur, ih]

theorem chainB_append (ihi jhi : Nat) :
    ∀ (xs ys : List MBlock) (i0 j0 : Nat), ChainB ihi jhi i0 j0 xs →
      ChainB ihi jhi (endCur i0 j0 xs).1 (endCur i0 j0 xs).2 ys →
      ChainB ihi jhi i0 j0 (xs ++ ys) := by
  intro xs
  induction xs with
  | nil => intro ys i0 j0 _ hy; exact hy
  | cons blk rest ih =>
    intro ys i0 j0 hx hy
    obtain ⟨h1, h2, h3, h4, h5⟩ := hx
    exact ⟨h1, h2, h3, h4, ih ys _ _ h5 hy⟩

theorem blockMatches_zero (a b : List α) (i j : Nat) : blockMatches a b i j 0 := by
  intro t ht
  omega

theorem blockMatches_concat (a b : List α) (i j k1 k2 : Nat)
    (h1 : blockMatches a b i j k1) (h2 : blockMatches a b (i + k1) (j + k1) k2) :
    blockMatches a b i j (k1 + k2) := by
  intro t ht
  by_cases htk : t < k1
  · exact h1 t htk
  · have h3 := h2 (t - k1) (by omega)
    have ha : i + k1 + (t - k1) = i + t := by omega
    have hb : j + k1 + (t - k1) = j + t := by omega
    rw [ha, hb] at h3
    exact h3

theorem mbr_good (a b : List α) : ∀ (fuel alo ahi blo bhi : Nat),
    ChainB ahi bhi alo blo (matchingBlocksRecAux a b fuel alo ahi blo bhi) ∧
    AllM a b (matchingBlocksRecAux a b fuel alo ahi blo bhi) := by
  intro fuel
  induction fuel with
  | zero =>
    intro alo ahi blo bhi
    exact ⟨trivial, by intro blk hblk; simp [matchingBlocksRecAux] at hblk⟩
  | succ n ih =>
    intro alo ahi blo bhi
    simp only [matchingBlocksRecAux]
    rcases hm : findLongestMatch a b alo ahi blo bhi with ⟨i, j, k⟩
    dsimp only
    by_cases h : 0 < k ∧ alo ≤ i ∧ i + k ≤ ahi ∧ blo ≤ j ∧ j + k ≤ bhi ∧
        blockMatches a b i j k
    · rw [if_pos h]
      obtain ⟨hk, hai, hik, hbj, hjk, hmm⟩ := h
      have hL : ChainB i j alo blo
            (if alo < i ∧ blo < j then matchingBlocksRecAux a b n alo i blo j else []) ∧
          AllM a b (if alo < i ∧ blo < j then matchingBlocksRecAux a b n alo i blo j else []) := by
        by_cases hc : alo < i ∧ blo < j
        · rw [if_pos hc]
          exact ih alo i blo j
        · rw [if_neg hc]
          exact ⟨trivial, by intro blk hblk; simp at hblk⟩
      have hR : ChainB ahi bhi (i + k) (j + k)
            (if i + k < ahi ∧ j + k < bhi then
              matchingBlocksRecAux a b n (i + k) ahi (j + k) bhi else []) ∧
          AllM a b (if i + k < ahi ∧ j + k < bhi then
            matchingBlocksRecAux a b n (i + k) ahi (j + k) bhi else []) := by
        by_cases hc : i + k < ahi ∧ j + k < bhi
        · rw [if_pos hc]
          exact ih (i + k) ahi (j + k) bhi
        · rw [if_neg hc]
          exact ⟨trivial, by intro blk hblk; simp at hblk⟩
      constructor
      · apply chainB_append ahi bhi _ _ alo blo
          (chainB_mono i j ahi bhi (by omega) (by omega) _ alo blo alo blo
            (le_refl _) (le_refl _) hL.1)
        have hle := chainB_endCur_le i j _ alo blo hL.1 (by omega) (by omega)
        refine ⟨?_, ?_, ?_, ?_, hR.1⟩ <;> dsimp only <;> omega
      · intro blk hblk
        rcases List.mem_append.mp hblk with hmem | hmem
        · exact hL.2 blk hmem
        · rcases List.mem_cons.mp hmem with hmem2 | hmem2
          · subst hmem2
            exact hmm
          · exact hR.2 blk hmem2
    · rw [if_neg h]
      exact ⟨trivial, by intro blk hblk; simp at hblk⟩

theorem collapse_good (a b : List α) (ihi jhi : Nat) :
    ∀ (rest : List MBlock) (i1 j1 k1 : Nat),
      ChainB ihi jhi (i1 + k1) (j1 + k1) rest →
      i1 + k1 ≤ ihi → j1 + k1 ≤ jhi →
      blockMatches a b i1 j1 k1 →
      AllM a b rest →
      ChainB ihi jhi i1 j1 (collapseAdj i1 j1 k1 rest) ∧
      AllM a b (collapseAdj i1 j1 k1 rest) := by
  intro rest
  induction rest with
  | nil =>
    intro i1 j1 k1 _ hik hjk hmm _
    by_cases hk : k1 ≠ 0
    · rw [collapseAdj, if_pos hk]
      refine ⟨⟨le_refl _, hik, le_refl _, hjk, trivial⟩, ?_⟩
      intro blk hblk
      rcases List.mem_singleton.mp hblk with rfl
      exact hmm
    · rw [collapseAdj, if_neg hk]
      exact ⟨trivial, by intro blk hblk; simp at hblk⟩
  | cons blk rest' ih =>
    intro i1 j1 k1 hch hik hjk hmm hall
    obtain ⟨h1, h2, h3, h4, h5⟩ := hch
    have hblkm : blockMatches a b blk.a blk.b blk.size := hall blk (List.mem_cons_self _ _)
    have hall' : AllM a b rest' := fun q hq => hall q (List.mem_cons_of_mem _ hq)
    by_cases hadj : i1 + k1 = blk.a ∧ j1 + k1 = blk.b
    · rw [collapseAdj, if_pos hadj]
      apply ih i1 j1 (k1 + blk.size)
      · have ha : i1 + (k1 + blk.size) = blk.a + blk.size := by omega
        have hb : j1 + (k1 + blk.size) = blk.b + blk.size := by omega
        rw [ha, hb]
        exact h5
      · omega
      · omega
      · apply blockMatches_concat a b i1 j1 k1 blk.size hmm
        rw [hadj.1, hadj.2]
        exact hblkm
      · exact hall'
    · rw [collapseAdj, if_neg hadj]
      have hres := ih blk.a blk.b blk.size h5 h2 h4 hblkm hall'
      constructor
      · by_cases hk : k1 ≠ 0
        · rw [if_pos hk]
          refine ⟨le_refl _, ?_, le_refl _, ?_, ?_⟩
          · dsimp only
            omega
          · dsimp only
            omega
          · exact chainB_mono ihi jhi ihi jhi (le_refl _) (le_refl _) _ blk.a blk.b
              (i1 + k1) (j1 + k1) h1 h3 hres.1
        · rw [if_neg hk]
          simp only [List.nil_append]
          have hk0 : k1 = 0 := by omega
          exact chainB_mono ihi jhi ihi jhi (le_refl _) (le_refl _) _ blk.a blk.b
            i1 j1 (by omega) (by omega) hres.1
      · intro q hq
        by_cases hk : k1 ≠ 0
        · rw [if_pos hk] at hq
          rcases List.mem_append.mp hq with hmem | hmem
          · rcases List.mem_singleton.mp hmem with rfl
            exact hmm
          · exact hres.2 q hmem
        · rw [if_neg hk] at hq
          simp only [List.nil_append] at hq
          exact hres.2 q hq

theorem gmb_good (a b : List α) :
    ChainB a.length b.length 0 0 (getMatchingBlocks a b) ∧
    AllM a b (getMatchingBlocks a b) ∧
    endCur 0 0 (getMatchingBlocks a b) = (a.length, b.length) := by
  obtain ⟨hch, hall⟩ : ChainB a.length b.length 0 0 (matchingBlocksRec a b 0 a.length 0 b.length) ∧
      AllM a b (matchingBlocksRec a b 0 a.length 0 b.length) :=
    mbr_good a b _ 0 a.length 0 b.length
  have hcol := collapse_good a b a.length b.length
    (matchingBlocksRec a b 0 a.length 0 b.length) 0 0 0 hch (by omega) (by omega)
    (blockMatches_zero a b 0 0) hall
  have hle := chainB_endCur_le a.length b.length _ 0 0 hcol.1 (by omega) (by omega)
  refine ⟨?_, ?_, ?_⟩
  · apply chainB_append a.length b.length _ _ 0 0 hcol.1
    refine ⟨hle.1, ?_, hle.2, ?_, trivial⟩ <;> dsimp only <;> omega
  · intro blk hblk
    rcases List.mem_append.mp hblk with hmem | hmem
    · exact hcol.2 blk hmem
    · rcases List.mem_singleton.mp hmem with rfl
      exact blockMatches_zero a b _ _
  · rw [getMatchingBlocks, endCur_append]
    rfl

theorem countsRec_nil : countsRec [] = (0, 0, 0) := rfl

theorem countsRec_replace (i1 i2 j1 j2 : Nat) :
    countsRec [(⟨"replace", i1, i2, j1, j2⟩ : Opcode)] = (0 + (j2 - j1), 0 + (i2 - i1), 0) := rfl

theorem countsRec_delete (i1 i2 j1 j2 : Nat) :
    countsRec [(⟨"delete", i1, i2, j1, j2⟩ : Opcode)] = (0, 0 + (i2 - i1), 0) := rfl

theorem countsRec_insert (i1 i2 j1 j2 : Nat) :
    countsRec [(⟨"insert", i1, i2, j1, j2⟩ : Opcode)] = (0 + (j2 - j1), 0, 0) := rfl

theorem countsRec_equal (i1 i2 j1 j2 : Nat) :
    countsRec [(⟨"equal", i1, i2, j1, j2⟩ : Opcode)] = (0, 0, 0 + (i2 - i1)) := rfl

theorem countsRec_append : ∀ (xs ys : List Opcode),
    countsRec (xs ++ ys) = ((countsRec xs).1 + (countsRec ys).1,
      (countsRec xs).2.1 + (countsRec ys).2.1, (countsRec xs).2.2 + (countsRec ys).2.2) := by
  intro xs ys
  induction xs with
  | nil => simp [countsRec]
  | cons op rest ih =>
    simp only [List.cons_append, countsRec, List.append_eq]
    rw [ih]
    split_ifs <;> simp [Prod.ext_iff] <;> omega

theorem countsRec_pre (i0 j0 A B : Nat) (h : i0 ≤ A) (h' : j0 ≤ B) :
    countsRec (if i0 < A ∧ j0 < B then [(⟨"replace", i0, A, j0, B⟩ : Opcode)]
      else if i0 < A then [⟨"delete", i0, A, j0, B⟩]
      else if j0 < B then [⟨"insert", i0, A, j0, B⟩] else []) = (B - j0, A - i0, 0) := by
  split_ifs with h1 h2 h3
  · rw [countsRec_replace]
    simp [Prod.ext_iff]
  · rw [countsRec_delete]
    simp [Prod.ext_iff]
    omega
  · rw [countsRec_insert]
    simp [Prod.ext_iff]
    omega
  · rw [countsRec_nil]
    simp [Prod.ext_iff]
    omega

theorem countsRec_eqop (A B size : Nat) :
    countsRec (if size ≠ 0 then [(⟨"equal", A, A + size, B, B + size⟩ : Opcode)] else []) =
      (0, 0, size) := by
  split_ifs with h
  · rw [countsRec_equal]
    simp [Prod.ext_iff]
  · rw [countsRec_nil]
    simp [Prod.ext_iff]
    omega

theorem sizeSum_cons (blk : MBlock) (rest : List MBlock) :
    sizeSum (blk :: rest) = blk.size + sizeSum rest := by
  simp [sizeSum]

theorem counts_opcodesFrom (ihi jhi : Nat) :
    ∀ (bs : List MBlock) (i0 j0 : Nat), ChainB ihi jhi i0 j0 bs →
      (countsRec (opcodesFrom i0 j0 bs)).2.2 = sizeSum bs ∧
      (countsRec (opcodesFrom i0 j0 bs)).1 + sizeSum bs + j0 = (endCur i0 j0 bs).2 ∧
      (countsRec (opcodesFrom i0 j0 bs)).2.1 + sizeSum bs + i0 = (endCur i0 j0 bs).1 := by
  intro bs
  induction bs with
  | nil => intro i0 j0 _; simp [opcodesFrom, countsRec, sizeSum, endCur]
  | cons blk rest ih =>
    intro i0 j0 h
    obtain ⟨h1, h2, h3, h4, h5⟩ := h
    obtain ⟨e1, e2, e3⟩ := ih (blk.a + blk.size) (blk.b + blk.size) h5
    simp only [opcodesFrom]
    rw [countsRec_append, countsRec_append, countsRec_pre i0 j0 blk.a blk.b h1 h3,
      countsRec_eqop blk.a blk.b blk.size]
    refine ⟨?_, ?_, ?_⟩ <;> simp only [endCur, sizeSum_cons] <;> omega

theorem blockPairs_mem (blk : MBlock) (p : Nat × Nat) :
    p ∈ blockPairs blk ↔ ∃ t, t < blk.size ∧ (blk.a + t, blk.b + t) = p := by
  simp [blockPairs, List.mem_map, List.mem_range]

theorem blockPairs_pairwise (blk : MBlock) :
    (blockPairs blk).Pairwise (fun p q => p.1 < q.1 ∧ p.2 < q.2) := by
  rw [List.pairwise_iff_getElem]
  intro i j hi hj hij
  simp only [blockPairs, List.length_map, List.length_range] at hi hj
  simp only [blockPairs, List.getElem_map, List.getElem_range]
  omega

theorem alignPairs_bounds (ihi jhi : Nat) :
    ∀ (bs : List MBlock) (i0 j0 : Nat), ChainB ihi jhi i0 j0 bs →
      ∀ p ∈ alignPairs bs, (i0 ≤ p.1 ∧ p.1 < ihi) ∧ (j0 ≤ p.2 ∧ p.2 < jhi) := by
  intro bs
  induction bs with
  | nil => intro i0 j0 _ p hp; simp [alignPairs] at hp
  | cons blk rest ih =>
    intro i0 j0 h p hp
    obtain ⟨h1, h2, h3, h4, h5⟩ := h
    rcases List.mem_append.mp hp with hm | hm
    · obtain ⟨t, ht, heq⟩ := (blockPairs_mem blk p).mp hm
      subst heq
      refine ⟨⟨?_, ?_⟩, ?_, ?_⟩ <;> dsimp only <;> omega
    · have hb := ih (blk.a + blk.size) (blk.b + blk.size) h5 p hm
      refine ⟨⟨?_, ?_⟩, ?_, ?_⟩ <;> omega

theorem alignPairs_pairwise (ihi jhi : Nat) :
    ∀ (bs : List MBlock) (i0 j0 : Nat), ChainB ihi jhi i0 j0 bs →
      (alignPairs bs).Pairwise (fun p q => p.1 < q.1 ∧ p.2 < q.2) := by
  intro bs
  induction bs with
  | nil => intro i0 j0 _; simp [alignPairs]
  | cons blk rest ih =>
    intro i0 j0 h
    obtain ⟨h1, h2, h3, h4, h5⟩ := h
    rw [alignPairs, List.pairwise_append]
    refine ⟨blockPairs_pairwise blk, ih _ _ h5, ?_⟩
    intro p hp q hq
    obtain ⟨t, ht, heq⟩ := (blockPairs_mem blk p).mp hp
    have hb := alignPairs_bounds ihi jhi rest _ _ h5 q hq
    subst heq
    constructor <;> dsimp only <;> omega

theorem alignPairs_matches (a b : List α) :
    ∀ (bs : List MBlock), AllM a b bs →
      ∀ p ∈ alignPairs bs, a[p.1]? = b[p.2]? ∧ (a[p.1]?).isSome = true := by
  intro bs
  induction bs with
  | nil => intro _ p hp; simp [alignPairs] at hp
  | cons blk rest ih =>
    intro hall p hp
    rcases List.mem_append.mp hp with hm | hm
    · obtain ⟨t, ht, heq⟩ := (blockPairs_mem blk p).mp hm
      subst heq
      exact hall blk (List.mem_cons_self _ _) t ht
    · exact ih (fun q hq => hall q (List.mem_cons_of_mem _ hq)) p hm

theorem length_alignPairs : ∀ (bs : List MBlock), (alignPairs bs).length = sizeSum bs := by
  intro bs
  induction bs with
  | nil => rfl
  | cons blk rest ih => simp [alignPairs, blockPairs, sizeSum, ih]

theorem summarize_foldl (ops : List Opcode) : ∀ acc : Nat × Nat × Nat,
    ops.foldl (fun (acc : Nat × Nat × Nat) op =>
        if op.tag = "insert" then (acc.1 + (op.j2 - op.j1), acc.2.1, acc.2.2)
        else if op.tag = "delete" then (acc.1, acc.2.1 + (op.i2 - op.i1), acc.2.2)
        else if op.tag = "replace" then (acc.1 + (op.j2 - op.j1), acc.2.1 + (op.i2 - op.i1), acc.2.2)
        else if op.tag = "equal" then (acc.1, acc.2.1, acc.2.2 + (op.i2 - op.i1))
        else acc) acc =
      (acc.1 + (countsRec ops).1, acc.2.1 + (countsRec ops).2.1, acc.2.2 + (countsRec ops).2.2) := by
  induction ops with
  | nil => intro acc; simp [countsRec]
  | cons op rest ih =>
    intro acc
    simp only [List.foldl_cons, countsRec]
    rw [ih]
    split_ifs <;> simp [Prod.ext_iff] <;> omega

theorem summarize_diff_spec (aS bS : String) :
    ∃ (eqn : Nat) (ps : List (Nat × Nat)),
      IsAlignment aS.data bS.data ps ∧
      ps.length = eqn ∧
      eqn + (bS.length - eqn) = bS.length ∧
      eqn + (aS.length - eqn) = aS.length ∧
      summarize_diff aS bS =
        "Found differences: " ++ toString (bS.length - eqn) ++ " insertions, " ++
          toString (aS.length - eqn) ++ " deletions, " ++ toString eqn ++
          " matches (char units)" := by
  obtain ⟨hch, hall, hend⟩ := gmb_good aS.data bS.data
  obtain ⟨e1, e2, e3⟩ := counts_opcodesFrom aS.data.length bS.data.length
    (getMatchingBlocks aS.data bS.data) 0 0 hch
  rw [hend] at e2 e3
  dsimp only at e2 e3
  have hgo : getOpcodes aS.data bS.data =
      opcodesFrom 0 0 (getMatchingBlocks aS.data bS.data) := rfl
  have hla : aS.data.length = aS.length := rfl
  have hlb : bS.data.length = bS.length := rfl
  refine ⟨sizeSum (getMatchingBlocks aS.data bS.data),
    alignPairs (getMatchingBlocks aS.data bS.data), ?_, ?_, ?_, ?_, ?_⟩
  · exact ⟨alignPairs_pairwise aS.data.length bS.data.length _ 0 0 hch,
      alignPairs_matches aS.data bS.data _ hall⟩
  · exact length_alignPairs _
  · omega
  · omega
  · simp only [summarize_diff]
    rw [summarize_foldl]
    have hc1 : (0 : Nat) + (countsRec (getOpcodes aS.data bS.data)).1 =
        bS.length - sizeSum (getMatchingBlocks aS.data bS.data) := by
      rw [hgo]
      omega
    have hc2 : (0 : Nat) + (countsRec (getOpcodes aS.data bS.data)).2.1 =
        aS.length - sizeSum (getMatchingBlocks aS.data bS.data) := by
      rw [hgo]
      omega
    have hc3 : (0 : Nat) + (countsRec (getOpcodes aS.data bS.data)).2.2 =
        sizeSum (getMatchingBlocks aS.data bS.data) := by
      rw [hgo]
      omega
    dsimp only
    rw [hc1, hc2, hc3]

/-- C8: with diff mode "summary", the row's `diff_obj` is the fixed sentence
whose counts come from the matching-block alignment — a genuine
common-subsequence alignment (strictly monotone matched index pairs relating
equal characters) — of the (possibly truncated) input rendering against the
output rendering, the latter being the fixed placeholder `<no-output>` when
the step failed: `eqn` matched characters, `|b| - eqn` insertions and
`|a| - eqn` deletions. -/
theorem C8_summary_diff (rf : RecordedFunction) (args : List PyVal)
    (kwargs : List (String × PyVal)) (clk : Clock) (hdiff : rf.diff = "summary") :
    ∃ (bStr : String) (eqn : Nat) (ps : List (Nat × Nat)),
      ((rf.call args kwargs clk).log_df.map Row.outcome = ["NOK! Failure"] →
        bStr = "<no-output>") ∧
      ((rf.call args kwargs clk).log_df.map Row.outcome = ["OK! Success"] →
        ∃ v, (rf.func args kwargs).result = .ok v ∧ bStr = safe_repr v 2000) ∧
      IsAlignment (call_input_repr args kwargs).data bStr.data ps ∧
      ps.length = eqn ∧
      eqn ≤ bStr.length ∧ eqn ≤ (call_input_repr args kwargs).length ∧
      (rf.call args kwargs clk).log_df.map Row.diff_obj =
        [DiffObj.summary ("Found differences: " ++ toString (bStr.length - eqn) ++
          " insertions, " ++ toString ((call_input_repr args kwargs).length - eqn) ++
          " deletions, " ++ toString eqn ++ " matches (char units)")] := by
  have hs1 : ¬(("summary" : String) = "none") := by decide
  rcases hres : (rf.func args kwargs).result with e | v
  · obtain ⟨eqn, ps, hal, hlen, hb, ha, hstr⟩ :=
      summarize_diff_spec (call_input_repr args kwargs) "<no-output>"
    have hout : (rf.call args kwargs clk).log_df.map Row.outcome = ["NOK! Failure"] := by
      simp [RecordedFunction.call, hres]
    have hdo : (rf.call args kwargs clk).log_df.map Row.diff_obj =
        [DiffObj.summary (summarize_diff (call_input_repr args kwargs) "<no-output>")] := by
      simp [RecordedFunction.call, hres, hdiff, hs1]
    refine ⟨"<no-output>", eqn, ps, fun _ => rfl, ?_, hal, hlen, by omega, by omega, ?_⟩
    · intro hOK
      rw [hout] at hOK
      exact absurd hOK (by decide)
    · rw [hdo, hstr]
  · by_cases hW : (2 ≤ rf.strict ∧ (rf.func args kwargs).warnings ≠ [])
    · obtain ⟨eqn, ps, hal, hlen, hb, ha, hstr⟩ :=
        summarize_diff_spec (call_input_repr args kwargs) "<no-output>"
      have hout : (rf.call args kwargs clk).log_df.map Row.outcome = ["NOK! Failure"] := by
        simp [RecordedFunction.call, hres, hW]
      have hdo : (rf.call args kwargs clk).log_df.map Row.diff_obj =
          [DiffObj.summary (summarize_diff (call_input_repr args kwargs) "<no-output>")] := by
        simp [RecordedFunction.call, hres, hW, hdiff, hs1]
      refine ⟨"<no-output>", eqn, ps, fun _ => rfl, ?_, hal, hlen, by omega, by omega, ?_⟩
      · intro hOK
        rw [hout] at hOK
        exact absurd hOK (by decide)
      · rw [hdo, hstr]
    · by_cases hP : (3 ≤ rf.strict ∧ pyStrip (rf.func args kwargs).printed ≠ "")
      · obtain ⟨eqn, ps, hal, hlen, hb, ha, hstr⟩ :=
          summarize_diff_spec (call_input_repr args kwargs) "<no-output>"
        have hout : (rf.call args kwargs clk).log_df.map Row.outcome = ["NOK! Failure"] := by
          simp [RecordedFunction.call, hres, hW, hP]
        have hdo : (rf.call args kwargs clk).log_df.map Row.diff_obj =
            [DiffObj.summary (summarize_diff (call_input_repr args kwargs) "<no-output>")] := by
          simp [RecordedFunction.call, hres, hW, hP, hdiff, hs1]
        refine ⟨"<no-output>", eqn, ps, fun _ => rfl, ?_, hal, hlen, by omega, by omega, ?_⟩
        · intro hOK
          rw [hout] at hOK
          exact absurd hOK (by decide)
        · rw [hdo, hstr]
      · obtain ⟨eqn, ps, hal, hlen, hb, ha, hstr⟩ :=
          summarize_diff_spec (call_input_repr args kwargs) (safe_repr v 2000)
        have hout : (rf.call args kwargs clk).log_df.map Row.outcome = ["OK! Success"] := by
          simp [RecordedFunction.call, hres, hW, hP]
        have hdo : (rf.call args kwargs clk).log_df.map Row.diff_obj =
            [DiffObj.summary (summarize_diff (call_input_repr args kwargs)
              (safe_repr v 2000))] := by
          simp [RecordedFunction.call, hres, hW, hP, hdiff, hs1]
        refine ⟨safe_repr v 2000, eqn, ps, ?_, ?_, hal, hlen, by omega, by omega, ?_⟩
        · intro hNOK
          rw [hout] at hNOK
          exact absurd hNOK (by decide)
        · intro _
          exact ⟨v, rfl, rfl⟩
        · rw [hdo, hstr]

/-- Witness for C8 at a concrete summary-diff recorder, with the counts of
the concrete alignment evaluated. -/
theorem C8_summary_diff_witness :
    rfDiffSum.diff = "summary" ∧
    (rfDiffSum.call [] [] clk0).log_df.map Row.diff_obj =
      [DiffObj.summary "Found differences: 1 insertions, 23 deletions, 3 matches (char units)"] := by
  refine ⟨rfl, ?_⟩
  have h := C8_summary_diff rfDiffSum [] [] clk0 rfl
  decide

end Cronista
